import Mathlib

/-!
# Query-parameter binder of grpc-gateway (`runtime/query.go`)

A shallow embedding of `PopulateQueryParameters`, `populateQueryParameter`,
`populateRepeatedField`, `populateField` and `convFromType`, followed by theorems
about them.

Go's reflection handles mutate the message in place.  Here every function returns the
updated value together with the Go return value, and the caller puts the updated value
back into the field it was read from.

Modelling decisions:
* a `reflect.Value` is a `Value`; a `reflect.Type` is a `GoType`.  Nil pointers and
  slices carry their element type, which is what `f.Type().Elem()` reads;
* a named scalar type (a proto enum such as `type Color int32`) is the type
  `GoType.named`: its kind is that of the basic type, but a value of the basic type
  cannot be stored in it and `Value.Set` panics;
* an optional scalar field is a pointer to a scalar type, a nil pointer when unset;
* unexported fields are outside the model: every field found by name is settable;
* a nil slice is `none`, an allocated one is `some elems`;
* float values are kept as their IEEE bit pattern;
* a run-time panic of the reflection library is the result `Result.panic`;
* `url.Values` is a Go map; the list given to `PopulateQueryParameters` is the order in
  which the `range` loop happens to visit its keys.
-/

namespace Runtime

/-! ## Data model -/

/-- The kinds of `reflect.Kind`. -/
inductive Kind where
  | Invalid | Bool | Int | Int8 | Int16 | Int32 | Int64
  | Uint | Uint8 | Uint16 | Uint32 | Uint64 | Uintptr
  | Float32 | Float64 | Complex64 | Complex128
  | Array | Chan | Func | Interface | Map | Ptr | Slice | String | Struct | UnsafePointer
  deriving DecidableEq, Repr

/-- The eight basic types that have a converter. -/
inductive ScalarKind where
  | Bool | Float32 | Float64 | Int32 | Int64 | String | Uint32 | Uint64
  deriving DecidableEq, Repr

/-- Kinds whose values the binder never looks into. -/
inductive OtherKind where
  | Int | Int8 | Int16 | Uint | Uint8 | Uint16 | Uintptr | Complex64 | Complex128
  | Array | Chan | Func | Interface | Map | UnsafePointer
  deriving DecidableEq, Repr

/-- The `reflect.Kind` of a basic type with a converter. -/
def ScalarKind.Kind : ScalarKind → Kind
  | .Bool => .Bool
  | .Float32 => .Float32
  | .Float64 => .Float64
  | .Int32 => .Int32
  | .Int64 => .Int64
  | .String => .String
  | .Uint32 => .Uint32
  | .Uint64 => .Uint64

/-- The `reflect.Kind` of a type the binder does not look into. -/
def OtherKind.Kind : OtherKind → Kind
  | .Int => .Int
  | .Int8 => .Int8
  | .Int16 => .Int16
  | .Uint => .Uint
  | .Uint8 => .Uint8
  | .Uint16 => .Uint16
  | .Uintptr => .Uintptr
  | .Complex64 => .Complex64
  | .Complex128 => .Complex128
  | .Array => .Array
  | .Chan => .Chan
  | .Func => .Func
  | .Interface => .Interface
  | .Map => .Map
  | .UnsafePointer => .UnsafePointer

/-- A value of one of the eight basic types. -/
inductive Scalar where
  | bool (b : Bool)
  | float32 (bits : Nat)
  | float64 (bits : Nat)
  | int32 (i : Int)
  | int64 (i : Int)
  | string (s : String)
  | uint32 (n : Nat)
  | uint64 (n : Nat)
  deriving DecidableEq, Repr

/-- The basic type of a scalar value. -/
def Scalar.kind : Scalar → ScalarKind
  | .bool _ => .Bool
  | .float32 _ => .Float32
  | .float64 _ => .Float64
  | .int32 _ => .Int32
  | .int64 _ => .Int64
  | .string _ => .String
  | .uint32 _ => .Uint32
  | .uint64 _ => .Uint64

/-- Go's zero value of a basic type. -/
def Scalar.zero : ScalarKind → Scalar
  | .Bool => .bool false
  | .Float32 => .float32 0
  | .Float64 => .float64 0
  | .Int32 => .int32 0
  | .Int64 => .int64 0
  | .String => .string ""
  | .Uint32 => .uint32 0
  | .Uint64 => .uint64 0

/-- A Go type, as far as the binder inspects it. -/
inductive GoType where
  | scalar (k : ScalarKind)
  | named (name : String) (k : ScalarKind)
  | other (k : OtherKind)
  | slice (elem : GoType)
  | ptr (elem : GoType)
  | struct (fields : List (String × GoType))

/-- A Go value as seen through `reflect.Value`. -/
inductive Value where
  | invalid
  | scalar (s : Scalar)
  | named (name : String) (s : Scalar)
  | other (k : OtherKind)
  | slice (elem : GoType) (elems : Option (List Value))
  | ptr (elem : GoType) (target : Option Value)
  | struct (fields : List (String × Value))

/-- The method `Type.Kind`. -/
def GoType.Kind : GoType → Kind
  | .scalar k => k.Kind
  | .named _ k => k.Kind
  | .other k => k.Kind
  | .slice _ => .Slice
  | .ptr _ => .Ptr
  | .struct _ => .Struct

/-- The method `Value.Kind`. -/
def Value.Kind : Value → Kind
  | .invalid => .Invalid
  | .scalar s => s.kind.Kind
  | .named _ s => s.kind.Kind
  | .other k => k.Kind
  | .slice _ _ => .Slice
  | .ptr _ _ => .Ptr
  | .struct _ => .Struct

mutual
/-- The zero value of a type: what `reflect.New(t).Elem()` and the slots of
`reflect.MakeSlice` hold. -/
def zero : GoType → Value
  | .scalar k => .scalar (Scalar.zero k)
  | .named n k => .named n (Scalar.zero k)
  | .other k => .other k
  | .slice e => .slice e none
  | .ptr e => .ptr e none
  | .struct fs => .struct (zeroFields fs)
/-- The zero values of the fields of a struct type. -/
def zeroFields : List (String × GoType) → List (String × Value)
  | [] => []
  | (n, t) :: rest => (n, zero t) :: zeroFields rest
end

/-- The errors the binder returns.  The Go code builds them with `fmt.Errorf`; the
constructor keeps the data the message is formatted from. -/
inductive Error where
  /-- Message "unexpected type %T: %v": the message is not a pointer. -/
  | unexpectedMessage
  /-- Message "non-aggregate type in the mid of path: %s". -/
  | nonAggregate (fieldPath : List String)
  /-- Message "unexpected repeated field in %s". -/
  | unexpectedRepeated (fieldPath : List String)
  /-- Message "unexpected type %s in %T". -/
  | unexpectedType (k : Kind)
  /-- Message "no value of field: %s". -/
  | noValue (fieldPath : List String)
  /-- Message "unsupported field type %s". -/
  | unsupportedFieldType (k : Kind)
  /-- An error returned by a converter for the given raw string. -/
  | conversion (k : ScalarKind) (val : String)
  deriving DecidableEq, Repr

/-- What a call returns: Go's `nil` error, an error, or a run-time panic. -/
inductive Result where
  | nil
  | error (e : Error)
  | panic
  deriving DecidableEq, Repr

/-- The raw strings are Go strings. -/
abbrev Str := String

/-- The converter functions `String`, `Bool`, `Float64`, ... of `runtime/convert.go`.
That file is not part of the sources at hand, so the functions are parameters; their Go
signatures fix the type of what each returns. -/
structure Converters where
  Float64 : Str → Except Error Nat
  Float32 : Str → Except Error Nat
  Int64 : Str → Except Error Int
  Int32 : Str → Except Error Int
  Uint64 : Str → Except Error Nat
  Uint32 : Str → Except Error Nat
  Bool : Str → Except Error Bool
  String : Str → Except Error Str

/-! ## The code of `runtime/query.go` -/

/-- The table `convFromType`: a converter for eight kinds, no entry for the others. -/
def convFromType (c : Converters) : Kind → Option (Str → Except Error Scalar)
  | .String => some (fun v => (c.String v).map Scalar.string)
  | .Bool => some (fun v => (c.Bool v).map Scalar.bool)
  | .Float64 => some (fun v => (c.Float64 v).map Scalar.float64)
  | .Float32 => some (fun v => (c.Float32 v).map Scalar.float32)
  | .Int64 => some (fun v => (c.Int64 v).map Scalar.int64)
  | .Int32 => some (fun v => (c.Int32 v).map Scalar.int32)
  | .Uint64 => some (fun v => (c.Uint64 v).map Scalar.uint64)
  | .Uint32 => some (fun v => (c.Uint32 v).map Scalar.uint32)
  | _ => none

/-- The method `Value.FieldByName` on the fields of a struct. -/
def FieldByName : List (String × Value) → String → Option Value
  | [], _ => none
  | (n, v) :: rest, name => if n = name then some v else FieldByName rest name

/-- Writing through the handle `FieldByName` returned: the field of that name gets the
new value. -/
def setField : List (String × Value) → String → Value → List (String × Value)
  | [], _, _ => []
  | (n, v) :: rest, name, x =>
    if n = name then (n, x) :: rest else (n, v) :: setField rest name x

/-- The method `Value.Set` applied to what a converter returned, a value `x` of a basic
type.  As in Go, `x` must be assignable to the type of the slot: it is stored when the
slot has that same basic type; on a slot of any other type, a named scalar type
included, the call panics, which is `none`. -/
def Set (slot : Value) (x : Scalar) : Option Value :=
  match slot with
  | .scalar s => if x.kind = s.kind then some (.scalar x) else none
  | _ => none

/-- The function `populateField`. -/
def populateField (c : Converters) (f : Value) (value : Str) : Value × Result :=
  match convFromType c f.Kind with
  | none => (f, .error (.unsupportedFieldType f.Kind))
  | some conv =>
    match conv value with
    | .error e => (f, .error e)
    | .ok x =>
      match Set f x with
      | some f1 => (f1, .nil)
      | none => (f, .panic)

/-- The loop of `populateRepeatedField`: the converted value is stored in slot `i` by
`f.Index(i).Set`, which panics when the index is out of range or the value cannot be
stored in the slot; the first conversion error ends the loop. -/
def fillSlice (conv : Str → Except Error Scalar) :
    List Str → Nat → List Value → List Value × Result
  | [], _, elems => (elems, .nil)
  | v :: rest, i, elems =>
    match conv v with
    | .error e => (elems, .error e)
    | .ok x =>
      match (elems.get? i).bind fun slot => Set slot x with
      | some stored => fillSlice conv rest (i + 1) (elems.set i stored)
      | none => (elems, .panic)

/-- The function `populateRepeatedField`.  `f.Type().Elem()` panics on a value that is
not a slice. -/
def populateRepeatedField (c : Converters) (f : Value) (values : List Str) :
    Value × Result :=
  match f with
  | .slice elemType _ =>
    match convFromType c elemType.Kind with
    | none => (f, .error (.unsupportedFieldType elemType.Kind))
    | some conv =>
      let filled := fillSlice conv values 0 (List.replicate values.length (zero elemType))
      (.slice elemType (some filled.1), filled.2)
  | _ => (f, .panic)

/-- The code of `populateQueryParameter` after its loop. -/
def afterLoop (c : Converters) (fieldPath : List String) (values : List Str)
    (m : Value) : Value × Result :=
  match values with
  | [] => (m, .error (.noValue fieldPath))
  | v :: _ => populateField c m v

/-- The loop of `populateQueryParameter` over the segments still to visit, `m` being the
value the loop variable `m` refers to.  Returns the updated `m`. -/
def populateLoop (c : Converters) (PascalFromSnake : String → String)
    (fieldPath : List String) (values : List Str) : List String → Value → Value × Result
  | [], m => afterLoop c fieldPath values m
  | fieldName :: rest, m =>
    let isLast := rest.isEmpty
    if !isLast && m.Kind != Kind.Struct then
      (m, .error (.nonAggregate fieldPath))
    else
      match m with
      | .struct fields =>
        let name := PascalFromSnake fieldName
        match FieldByName fields name with
        | none => (m, .nil)
        | some f =>
          match f.Kind with
          | .Bool | .Float32 | .Float64 | .Int32 | .Int64 | .String | .Uint32 | .Uint64 =>
            let sub := populateLoop c PascalFromSnake fieldPath values rest f
            (.struct (setField fields name sub.1), sub.2)
          | .Slice =>
            if !isLast then
              (m, .error (.unexpectedRepeated fieldPath))
            else
              let sub := populateRepeatedField c f values
              (.struct (setField fields name sub.1), sub.2)
          | .Ptr =>
            match f with
            | .ptr t target =>
              let sub := populateLoop c PascalFromSnake fieldPath values rest
                (target.getD (zero t))
              (.struct (setField fields name (.ptr t (some sub.1))), sub.2)
            | _ => (m, .panic)
          | .Struct =>
            let sub := populateLoop c PascalFromSnake fieldPath values rest f
            (.struct (setField fields name sub.1), sub.2)
          | k => (m, .error (.unexpectedType k))
      | _ => (m, .panic)

/-- The function `populateQueryParameter`. -/
def populateQueryParameter (c : Converters) (PascalFromSnake : String → String)
    (msg : Value) (fieldPath : List String) (values : List Str) : Value × Result :=
  match msg with
  | .ptr t (some m) =>
    let sub := populateLoop c PascalFromSnake fieldPath values fieldPath m
    (.ptr t (some sub.1), sub.2)
  | .ptr _ none =>
    (msg, (populateLoop c PascalFromSnake fieldPath values fieldPath .invalid).2)
  | _ => (msg, .error .unexpectedMessage)

/-- One pass over the characters of `strings.Split(s, sep)` for a one-character
separator; `cur` holds the current piece in reverse. -/
def splitAux (sep : Char) : List Char → List Char → List String
  | [], cur => [String.mk cur.reverse]
  | ch :: rest, cur =>
    if ch = sep then String.mk cur.reverse :: splitAux sep rest []
    else splitAux sep rest (ch :: cur)

/-- The call `strings.Split(key, ".")`. -/
def Split (key : String) : List String :=
  splitAux '.' key.data []

/-- The function `PopulateQueryParameters`.  `filter` is the method
`filter.HasCommonPrefix` of `internal.DoubleArray`, a type that is not part of the
sources at hand. -/
def PopulateQueryParameters (c : Converters) (PascalFromSnake : String → String)
    (msg : Value) (values : List (String × List Str)) (filter : List String → Bool) :
    Value × Result :=
  match values with
  | [] => (msg, .nil)
  | (key, vals) :: rest =>
    let fieldPath := Split key
    if filter fieldPath then
      PopulateQueryParameters c PascalFromSnake msg rest filter
    else
      match populateQueryParameter c PascalFromSnake msg fieldPath vals with
      | (msg1, .nil) => PopulateQueryParameters c PascalFromSnake msg1 rest filter
      | (msg1, err) => (msg1, err)

/-! ## Reading a message -/

/-- The spec's `convert(kind, value)`: the registry's converter applied to the value; a
kind without a converter is an unsupported type. -/
def convert (c : Converters) (k : Kind) (v : Str) : Except Error Scalar :=
  match convFromType c k with
  | some conv => conv v
  | none => .error (.unsupportedFieldType k)

/-- The message held by a nested-message field (a pointer to a message, or a message
embedded by value), an unset one read as the empty message of its type. -/
def enter : Value → Option Value
  | .ptr t target => some (target.getD (zero t))
  | .struct inner => some (.struct inner)
  | _ => none

/-- The message held by a nested-message field that is set. -/
def enterSet : Value → Option Value
  | .ptr _ (some inner) => some inner
  | .struct inner => some (.struct inner)
  | _ => none

/-- The nested-message field `g` holding the message `inner`. -/
def rewrap : Value → Value → Value
  | .ptr t _, inner => .ptr t (some inner)
  | _, inner => inner

/-- The value a singular scalar field holds, as the binder reaches it: the field itself
when its type is a basic or a named scalar type; for an optional scalar field, which the
message declares as a pointer to such a type, the value pointed to, an unset one read as
the zero value.  `none` for every other field. -/
def target : Value → Option Value
  | .scalar s => some (.scalar s)
  | .named n s => some (.named n s)
  | .ptr t tgt =>
    match tgt.getD (zero t) with
    | .scalar s => some (.scalar s)
    | .named n s => some (.named n s)
    | _ => none
  | _ => none

/-- The field a path addresses, read the way a client of the message reads it: through
nested messages that are set.  `none` when a segment names no field or a nested message
on the way is unset. -/
def fieldAt (pascal : String → String) : Value → List String → Option Value
  | _, [] => none
  | m, s :: rest =>
    match m, rest with
    | .struct fields, [] => FieldByName fields (pascal s)
    | .struct fields, _ :: _ =>
      ((FieldByName fields (pascal s)).bind enterSet).bind fun inner =>
        fieldAt pascal inner rest
    | _, _ => none

/-- The field a path resolves to in the schema of the message: like `fieldAt`, but an
unset nested message is read as the empty message of its type. -/
def peek (pascal : String → String) : Value → List String → Option Value
  | _, [] => none
  | m, s :: rest =>
    match m, rest with
    | .struct fields, [] => FieldByName fields (pascal s)
    | .struct fields, _ :: _ =>
      ((FieldByName fields (pascal s)).bind enter).bind fun inner =>
        peek pascal inner rest
    | _, _ => none

/-- The message reached by following the segments through nested-message fields, an
unset one read as the empty message of its type. -/
def nestedAt (pascal : String → String) : Value → List String → Option Value
  | m, [] => some m
  | m, s :: rest =>
    match m with
    | .struct fields =>
      ((FieldByName fields (pascal s)).bind enter).bind fun inner =>
        nestedAt pascal inner rest
    | _ => none

/-- Every nested message the segments traverse is set. -/
def allSet (pascal : String → String) : Value → List String → Bool
  | _, [] => true
  | m, s :: rest =>
    match m with
    | .struct fields =>
      match (FieldByName fields (pascal s)).bind enterSet with
      | some inner => allSet pascal inner rest
      | none => false
    | _ => false

/-- The message with the unset nested messages along the segments replaced by empty
instances, and nothing else changed. -/
def allocated (pascal : String → String) : Value → List String → Value
  | m, [] => m
  | m, s :: rest =>
    match m with
    | .struct fields =>
      match FieldByName fields (pascal s) with
      | some g =>
        match enter g with
        | some inner =>
          .struct (setField fields (pascal s) (rewrap g (allocated pascal inner rest)))
        | none => m
      | none => m
    | _ => m

/-- What the binder does with the field the last segment names when that field is a
scalar or a repeated one: a repeated field goes to `populateRepeatedField` with all the
values, a scalar to the code after the loop. -/
def bindLeaf (c : Converters) (fieldPath : List String) (values : List Str)
    (f : Value) : Value × Result :=
  match f with
  | .slice _ _ => populateRepeatedField c f values
  | _ => afterLoop c fieldPath values f

/-- A field the binder can bind: a scalar or a repeated one. -/
def isLeaf : Value → Bool
  | .scalar _ => true
  | .slice _ _ => true
  | _ => false

/-! ## Concrete collaborators for evaluating the code -/

/-- Modelled from the spec: `strings.Title(strings.ToLower(c))` on one component of a
segment, for `internal.PascalFromSnake`, which is missing from the sources. -/
def titleLower : List Char → List Char
  | [] => []
  | ch :: rest => ch.toUpper :: rest.map Char.toLower

/-- Modelled from the spec: the pieces of a segment between separators, for
`internal.PascalFromSnake`, which is missing from the sources. -/
def splitChars (sep : Char) : List Char → List Char → List (List Char)
  | [], cur => [cur.reverse]
  | ch :: rest, cur =>
    if ch = sep then cur.reverse :: splitChars sep rest []
    else splitChars sep rest (ch :: cur)

/-- Modelled from the spec: `internal.PascalFromSnake`, missing from the sources, which
translates a lower-snake segment to the schema's field-naming convention: the pieces
between underscores are capitalised and joined. -/
def PascalFromSnake (str : String) : String :=
  String.mk ((splitChars '_' str.data []).map titleLower).flatten

/-- Modelled from the spec: decimal parsing for the integer converters of
`runtime/convert.go`, missing from the sources: the value of a digit string, `none` when
a character is not a digit or the string is empty. -/
def parseDigits : List Char → Option Nat
  | [] => none
  | cs => cs.foldl
      (fun acc ch => acc.bind fun n => if ch.isDigit then some (10 * n + (ch.toNat - 48)) else none)
      (some 0)

/-- Modelled from the spec: the signed integer converters of `runtime/convert.go`,
missing from the sources: decimal parsing with the range check of the bit width. -/
def parseInt (k : ScalarKind) (bits : Nat) (v : Str) : Except Error Int :=
  let signed : Option Int :=
    match v.data with
    | '-' :: cs => (parseDigits cs).map fun n => - (n : Int)
    | '+' :: cs => (parseDigits cs).map fun n => (n : Int)
    | cs => (parseDigits cs).map fun n => (n : Int)
  match signed with
  | some i => if - (2 : Int) ^ (bits - 1) ≤ i ∧ i < (2 : Int) ^ (bits - 1) then .ok i
              else .error (.conversion k v)
  | none => .error (.conversion k v)

/-- Modelled from the spec: the unsigned integer converters of `runtime/convert.go`,
missing from the sources: decimal parsing with the range check of the bit width. -/
def parseUint (k : ScalarKind) (bits : Nat) (v : Str) : Except Error Nat :=
  match parseDigits v.data with
  | some n => if n < 2 ^ bits then .ok n else .error (.conversion k v)
  | none => .error (.conversion k v)

/-- Modelled from the spec: the boolean converter of `runtime/convert.go`, missing from
the sources: standard boolean literal parsing. -/
def parseBool (v : Str) : Except Error Bool :=
  if v ∈ ["1", "t", "T", "TRUE", "true", "True"] then .ok true
  else if v ∈ ["0", "f", "F", "FALSE", "false", "False"] then .ok false
  else .error (.conversion .Bool v)

/-- Modelled from the spec: the converters of `runtime/convert.go`, missing from the
sources: the string converter is the identity, integers are parsed in decimal with a
range check per bit width, booleans by the standard literals.  Parsing of floating-point
text is outside this development: the two float entries report a conversion error on
every input and no theorem below evaluates them. -/
def specConverters : Converters where
  Float64 := fun v => .error (.conversion .Float64 v)
  Float32 := fun v => .error (.conversion .Float32 v)
  Int64 := parseInt .Int64 64
  Int32 := parseInt .Int32 32
  Uint64 := parseUint .Uint64 64
  Uint32 := parseUint .Uint32 32
  Bool := parseBool
  String := fun v => .ok v

/-- The nested message type of the examples: `Nested{value: int32, label: string}`. -/
def exampleNested : GoType :=
  .struct [("Value", .scalar .Int32), ("Label", .scalar .String)]

/-- A message type with the fields of the spec's examples: a string `name`, a nested
message `nested`, repeated strings `tags`, repeated int32 `id`, and bytes `data`. -/
def exampleType : GoType :=
  .struct [("Name", .scalar .String), ("Nested", .ptr exampleNested),
    ("Tags", .slice (.scalar .String)), ("Id", .slice (.scalar .Int32)),
    ("Data", .slice (.other .Uint8))]

/-- The empty message of `exampleType`, as the caller passes it: a pointer to it. -/
def exampleEmpty : Value :=
  .ptr exampleType (some (zero exampleType))

/-- The fields of an example message in which the nested message is set. -/
def exampleSetFields : List (String × Value) :=
  [("Name", .scalar (.string "n")),
    ("Nested", .ptr exampleNested
      (some (.struct [("Value", .scalar (.int32 7)), ("Label", .scalar (.string "old"))]))),
    ("Tags", .slice (.scalar .String) none), ("Id", .slice (.scalar .Int32) none),
    ("Data", .slice (.other .Uint8) none)]

/-- A message type with a field of an enum type and a repeated field of that type:
`Paint{color: Color, colors: repeated Color}`, the generated Go type of the enum being
`type Color int32`. -/
def exampleEnumType : GoType :=
  .struct [("Color", .named "Color" .Int32), ("Colors", .slice (.named "Color" .Int32))]

/-- A message type with an optional scalar field, which the generated Go code declares
as a pointer: `Page{count: optional int32}`, with the Go field `Count *int32`. -/
def exampleOptionalType : GoType :=
  .struct [("Count", .ptr (.scalar .Int32))]

/-- A filter that excludes nothing. -/
def noFilter : List String → Bool :=
  fun _ => false

/-- Modelled from the spec: the exclusion filter `internal.DoubleArray`, missing from
the sources, as the set of reserved prefixes it was built from: a path is excluded iff
some reserved prefix is a component-wise prefix of it. -/
def hasCommonPrefix (reserved : List (List String)) (path : List String) : Bool :=
  reserved.any fun p => p.isPrefixOf path

/-! ## Classifying errors -/

/-- The spec's Unsupported Type Error: a field kind without a converter, a field of a
kind the binder does not handle, or a repeated field before the end of the path. -/
def Error.unsupported : Error → Bool
  | .unexpectedRepeated _ => true
  | .unexpectedType _ => true
  | .unsupportedFieldType _ => true
  | _ => false

/-- What one iteration of the loop does to the field `f` its segment names, `rest` being
the segments still to come: the `switch` of the loop body followed by the rest of the
walk.  Returns the updated field. -/
def bindField (c : Converters) (PascalFromSnake : String → String)
    (fieldPath : List String) (values : List Str) (rest : List String) (f : Value) :
    Value × Result :=
  match f.Kind with
  | .Bool | .Float32 | .Float64 | .Int32 | .Int64 | .String | .Uint32 | .Uint64 =>
    populateLoop c PascalFromSnake fieldPath values rest f
  | .Slice =>
    if !rest.isEmpty then (f, .error (.unexpectedRepeated fieldPath))
    else populateRepeatedField c f values
  | .Ptr =>
    match f with
    | .ptr t target =>
      let sub := populateLoop c PascalFromSnake fieldPath values rest (target.getD (zero t))
      (.ptr t (some sub.1), sub.2)
    | _ => (f, .panic)
  | .Struct => populateLoop c PascalFromSnake fieldPath values rest f
  | k => (f, .error (.unexpectedType k))

/-! ## The shape of a message -/

/-- What the control flow of the binder can depend on in a value: the kinds of the
fields, their names, the element types of the repeated fields.  The contents of scalars
and of repeated fields are left out. -/
inductive Shape where
  | invalid
  | scalar (k : ScalarKind)
  | named (name : String) (k : ScalarKind)
  | other (k : OtherKind)
  | slice (elem : GoType)
  | ptr (target : Shape)
  | struct (fields : List (String × Shape))

mutual
/-- The shape of the zero value of a type. -/
def shapeOfType : GoType → Shape
  | .scalar k => .scalar k
  | .named n k => .named n k
  | .other k => .other k
  | .slice e => .slice e
  | .ptr e => .ptr (shapeOfType e)
  | .struct fs => .struct (shapeOfFieldTypes fs)
/-- The shapes of the fields of a struct type. -/
def shapeOfFieldTypes : List (String × GoType) → List (String × Shape)
  | [] => []
  | (n, t) :: rest => (n, shapeOfType t) :: shapeOfFieldTypes rest
end

mutual
/-- The shape of a value.  An unset pointer has the shape of a pointer to the empty
value of its element type, which is what the binder allocates when it goes through. -/
def shape : Value → Shape
  | .invalid => .invalid
  | .scalar s => .scalar s.kind
  | .named n s => .named n s.kind
  | .other k => .other k
  | .slice e _ => .slice e
  | .ptr t none => .ptr (shapeOfType t)
  | .ptr _ (some v) => .ptr (shape v)
  | .struct fs => .struct (shapeFields fs)
/-- The shapes of the fields of a struct value. -/
def shapeFields : List (String × Value) → List (String × Shape)
  | [] => []
  | (n, v) :: rest => (n, shape v) :: shapeFields rest
end

/-- The kind of the values of a shape. -/
def Shape.Kind : Shape → Kind
  | .invalid => .Invalid
  | .scalar k => k.Kind
  | .named _ k => k.Kind
  | .other k => k.Kind
  | .slice _ => .Slice
  | .ptr _ => .Ptr
  | .struct _ => .Struct

/-- The function `PopulateQueryParameters` seen from inside the message the pointer
`msg` refers to: the keys are bound in turn by the loop of `populateQueryParameter`,
up to the first that does not return `nil`. -/
def populateAll (c : Converters) (PascalFromSnake : String → String)
    (filter : List String → Bool) : List (String × List Str) → Value → Value × Result
  | [], m => (m, .nil)
  | (key, vals) :: rest, m =>
    if filter (Split key) then populateAll c PascalFromSnake filter rest m
    else
      match populateLoop c PascalFromSnake (Split key) vals (Split key) m with
      | (m1, .nil) => populateAll c PascalFromSnake filter rest m1
      | (m1, err) => (m1, err)

/-- The messages left by binding the keys in turn, each by the loop of
`populateQueryParameter`, without regard to what the bindings return. -/
def applyAll (c : Converters) (PascalFromSnake : String → String) :
    List (String × List Str) → Value → Value
  | [], m => m
  | (key, vals) :: rest, m =>
    applyAll c PascalFromSnake rest
      (populateLoop c PascalFromSnake (Split key) vals (Split key) m).1

/-- The field path a key translates to: its segments in the schema's naming
convention. -/
def translated (PascalFromSnake : String → String) (key : String) : List String :=
  (Split key).map PascalFromSnake

end Runtime

namespace Runtime

/-! ## Lemmas on field access -/

theorem FieldByName_setField_same (fs : List (String × Value)) (n : String) (v x : Value)
    (h : FieldByName fs n = some v) : FieldByName (setField fs n x) n = some x := by
  induction fs with
  | nil => simp [FieldByName] at h
  | cons hd tl ih =>
    obtain ⟨n1, v1⟩ := hd
    by_cases hn : n1 = n
    · simp [setField, FieldByName, hn]
    · simp [FieldByName, hn] at h
      simp [setField, FieldByName, hn, ih h]

theorem FieldByName_setField_other (fs : List (String × Value)) (n n1 : String) (x : Value)
    (hne : n1 ≠ n) : FieldByName (setField fs n x) n1 = FieldByName fs n1 := by
  induction fs with
  | nil => simp [setField, FieldByName]
  | cons hd tl ih =>
    obtain ⟨n2, v2⟩ := hd
    by_cases hn : n2 = n
    · subst hn
      have : ¬ n2 = n1 := fun h => hne h.symm
      simp [setField, FieldByName, this]
    · by_cases hn1 : n2 = n1
      · subst hn1
        simp [setField, FieldByName, hn]
      · simp [setField, FieldByName, hn, hn1, ih]

theorem setField_self (fs : List (String × Value)) (n : String) (v : Value)
    (h : FieldByName fs n = some v) : setField fs n v = fs := by
  induction fs with
  | nil => simp [FieldByName] at h
  | cons hd tl ih =>
    obtain ⟨n1, v1⟩ := hd
    by_cases hn : n1 = n
    · simp [FieldByName, hn] at h
      simp [setField, hn, h]
    · simp [FieldByName, hn] at h
      simp [setField, hn, ih h]

theorem setField_names (fs : List (String × Value)) (n : String) (x : Value) :
    (setField fs n x).map Prod.fst = fs.map Prod.fst := by
  induction fs with
  | nil => simp [setField]
  | cons hd tl ih =>
    obtain ⟨n1, v1⟩ := hd
    by_cases hn : n1 = n
    · simp [setField, hn]
    · simp [setField, hn, ih]

theorem setField_overwrite (fs : List (String × Value)) (n : String) (x y : Value) :
    setField (setField fs n x) n y = setField fs n y := by
  induction fs with
  | nil => simp [setField]
  | cons hd tl ih =>
    obtain ⟨n1, v1⟩ := hd
    by_cases hn : n1 = n
    · simp [setField, hn]
    · simp [setField, hn, ih]

theorem setField_comm (fs : List (String × Value)) (n1 n2 : String) (x y : Value)
    (hne : n1 ≠ n2) :
    setField (setField fs n1 x) n2 y = setField (setField fs n2 y) n1 x := by
  induction fs with
  | nil => simp [setField]
  | cons hd tl ih =>
    obtain ⟨n, v⟩ := hd
    by_cases h1 : n = n1
    · subst h1
      simp [setField, hne]
    · by_cases h2 : n = n2
      · subst h2
        simp [setField, h1]
      · simp [setField, h1, h2, ih]

/-! ## One step of the loop -/

section Step
variable (c : Converters) (pascal : String → String) (fp : List String) (vals : List Str)

theorem populateLoop_notFound (s : String) (rest : List String)
    (fs : List (String × Value)) (h : FieldByName fs (pascal s) = none) :
    populateLoop c pascal fp vals (s :: rest) (.struct fs) = (.struct fs, .nil) := by
  simp [populateLoop, Value.Kind, h]

theorem populateLoop_ptr (s : String) (rest : List String) (fs : List (String × Value))
    (t : GoType) (target : Option Value)
    (h : FieldByName fs (pascal s) = some (.ptr t target)) :
    populateLoop c pascal fp vals (s :: rest) (.struct fs) =
      (.struct (setField fs (pascal s) (.ptr t (some
          (populateLoop c pascal fp vals rest (target.getD (zero t))).1))),
        (populateLoop c pascal fp vals rest (target.getD (zero t))).2) := by
  simp [populateLoop, Value.Kind, h]

theorem populateLoop_struct (s : String) (rest : List String) (fs : List (String × Value))
    (inner : List (String × Value))
    (h : FieldByName fs (pascal s) = some (.struct inner)) :
    populateLoop c pascal fp vals (s :: rest) (.struct fs) =
      (.struct (setField fs (pascal s)
          (populateLoop c pascal fp vals rest (.struct inner)).1),
        (populateLoop c pascal fp vals rest (.struct inner)).2) := by
  simp [populateLoop, Value.Kind, h]

theorem populateLoop_scalar (s : String) (rest : List String) (fs : List (String × Value))
    (x : Scalar) (h : FieldByName fs (pascal s) = some (.scalar x)) :
    populateLoop c pascal fp vals (s :: rest) (.struct fs) =
      (.struct (setField fs (pascal s)
          (populateLoop c pascal fp vals rest (.scalar x)).1),
        (populateLoop c pascal fp vals rest (.scalar x)).2) := by
  cases x <;> simp [populateLoop, Value.Kind, Scalar.kind, ScalarKind.Kind, h]

theorem populateLoop_named (s : String) (rest : List String) (fs : List (String × Value))
    (n : String) (x : Scalar) (h : FieldByName fs (pascal s) = some (.named n x)) :
    populateLoop c pascal fp vals (s :: rest) (.struct fs) =
      (.struct (setField fs (pascal s)
          (populateLoop c pascal fp vals rest (.named n x)).1),
        (populateLoop c pascal fp vals rest (.named n x)).2) := by
  cases x <;> simp [populateLoop, Value.Kind, Scalar.kind, ScalarKind.Kind, h]

theorem populateLoop_slice (s : String) (fs : List (String × Value))
    (t : GoType) (elems : Option (List Value))
    (h : FieldByName fs (pascal s) = some (.slice t elems)) :
    populateLoop c pascal fp vals [s] (.struct fs) =
      (.struct (setField fs (pascal s) (populateRepeatedField c (.slice t elems) vals).1),
        (populateRepeatedField c (.slice t elems) vals).2) := by
  simp [populateLoop, Value.Kind, h]

theorem populateLoop_nil (m : Value) :
    populateLoop c pascal fp vals [] m = afterLoop c fp vals m := by
  simp [populateLoop]

/-- Entering a nested-message field: the loop goes on inside the message the field
holds, allocated first when it is unset. -/
theorem populateLoop_enter (s : String) (rest : List String) (fs : List (String × Value))
    (g inner : Value) (h : FieldByName fs (pascal s) = some g)
    (hg : enter g = some inner) :
    populateLoop c pascal fp vals (s :: rest) (.struct fs) =
      (.struct (setField fs (pascal s)
          (rewrap g (populateLoop c pascal fp vals rest inner).1)),
        (populateLoop c pascal fp vals rest inner).2) := by
  cases g with
  | ptr t target =>
    simp only [enter, Option.some.injEq] at hg
    subst hg
    rw [populateLoop_ptr c pascal fp vals s rest fs t target h]
    rfl
  | struct fs1 =>
    simp only [enter, Option.some.injEq] at hg
    subst hg
    rw [populateLoop_struct c pascal fp vals s rest fs fs1 h]
    rfl
  | invalid => simp [enter] at hg
  | scalar x => simp [enter] at hg
  | named nm x => simp [enter] at hg
  | other k => simp [enter] at hg
  | slice t e => simp [enter] at hg

end Step

/-! ## Lemmas on reading a message -/

section Reading
variable (pascal : String → String)

theorem enterSet_enter (g inner : Value) (h : enterSet g = some inner) :
    enter g = some inner := by
  cases g with
  | ptr t target =>
    cases target with
    | none => simp [enterSet] at h
    | some w => simpa [enterSet, enter] using h
  | struct fs => simpa [enterSet, enter] using h
  | invalid => simp [enterSet] at h
  | scalar x => simp [enterSet] at h
  | named nm x => simp [enterSet] at h
  | other k => simp [enterSet] at h
  | slice t e => simp [enterSet] at h

theorem enterSet_rewrap (g inner : Value) (fs : List (String × Value))
    (h : enter g = some inner) : enterSet (rewrap g (.struct fs)) = some (.struct fs) := by
  cases g with
  | ptr t target => simp [rewrap, enterSet]
  | struct fs1 => simp [rewrap, enterSet]
  | invalid => simp [enter] at h
  | scalar x => simp [enter] at h
  | named nm x => simp [enter] at h
  | other k => simp [enter] at h
  | slice t e => simp [enter] at h

theorem enter_rewrap (g inner : Value) (fs : List (String × Value))
    (h : enter g = some inner) : enter (rewrap g (.struct fs)) = some (.struct fs) :=
  enterSet_enter _ _ (enterSet_rewrap g inner fs h)

theorem rewrap_rewrap (g w : Value) (fs : List (String × Value)) :
    rewrap (rewrap g (.struct fs)) w = rewrap g w := by
  cases g <;> simp [rewrap]

theorem rewrap_enterSet (g inner : Value) (h : enterSet g = some inner) :
    rewrap g inner = g := by
  cases g with
  | ptr t target =>
    cases target with
    | none => simp [enterSet] at h
    | some w =>
      simp only [enterSet, Option.some.injEq] at h
      simp [rewrap, h]
  | struct fs =>
    simp only [enterSet, Option.some.injEq] at h
    simp [rewrap, ← h]
  | invalid => simp [enterSet] at h
  | scalar x => simp [enterSet] at h
  | named nm x => simp [enterSet] at h
  | other k => simp [enterSet] at h
  | slice t e => simp [enterSet] at h

theorem peek_one (s : String) (fs : List (String × Value)) :
    peek pascal (.struct fs) [s] = FieldByName fs (pascal s) := by
  simp [peek]

theorem peek_cons (s s2 : String) (rest : List String) (fs : List (String × Value)) :
    peek pascal (.struct fs) (s :: s2 :: rest) =
      ((FieldByName fs (pascal s)).bind enter).bind fun inner =>
        peek pascal inner (s2 :: rest) := by
  rw [peek]

theorem fieldAt_one (s : String) (fs : List (String × Value)) :
    fieldAt pascal (.struct fs) [s] = FieldByName fs (pascal s) := by
  simp [fieldAt]

theorem fieldAt_cons (s s2 : String) (rest : List String) (fs : List (String × Value)) :
    fieldAt pascal (.struct fs) (s :: s2 :: rest) =
      ((FieldByName fs (pascal s)).bind enterSet).bind fun inner =>
        fieldAt pascal inner (s2 :: rest) := by
  rw [fieldAt]

theorem fieldAt_nonstruct (m : Value) (path : List String)
    (h : ∀ fs, m ≠ .struct fs) : fieldAt pascal m path = none := by
  cases path with
  | nil => simp [fieldAt]
  | cons s rest =>
    cases m with
    | struct fs => exact absurd rfl (h fs)
    | invalid => simp [fieldAt]
    | scalar x => simp [fieldAt]
    | named nm x => simp [fieldAt]
    | other k => simp [fieldAt]
    | slice t e => simp [fieldAt]
    | ptr t e => simp [fieldAt]

theorem peek_nonstruct (m : Value) (path : List String)
    (h : ∀ fs, m ≠ .struct fs) : peek pascal m path = none := by
  cases path with
  | nil => simp [peek]
  | cons s rest =>
    cases m with
    | struct fs => exact absurd rfl (h fs)
    | invalid => simp [peek]
    | scalar x => simp [peek]
    | named nm x => simp [peek]
    | other k => simp [peek]
    | slice t e => simp [peek]
    | ptr t e => simp [peek]

theorem peek_some_struct (m f : Value) (path : List String)
    (h : peek pascal m path = some f) : ∃ fs, m = .struct fs := by
  by_contra hc
  rw [peek_nonstruct pascal m path (fun fs hfs => hc ⟨fs, hfs⟩)] at h
  exact Option.noConfusion h

theorem fieldAt_some_struct (m f : Value) (path : List String)
    (h : fieldAt pascal m path = some f) : ∃ fs, m = .struct fs := by
  by_contra hc
  rw [fieldAt_nonstruct pascal m path (fun fs hfs => hc ⟨fs, hfs⟩)] at h
  exact Option.noConfusion h

/-- The field a multi-segment path resolves to lies behind a nested-message field named
by the first segment. -/
theorem peek_cons_cases (s s2 : String) (rest : List String)
    (fs : List (String × Value)) (f : Value)
    (h : peek pascal (.struct fs) (s :: s2 :: rest) = some f) :
    ∃ g inner, FieldByName fs (pascal s) = some g ∧ enter g = some inner ∧
      peek pascal inner (s2 :: rest) = some f := by
  rw [peek_cons] at h
  cases hg : FieldByName fs (pascal s) with
  | none => simp [hg] at h
  | some g =>
    cases hi : enter g with
    | none => simp [hg, hi] at h
    | some inner => exact ⟨g, inner, rfl, hi, by simpa [hg, hi] using h⟩

end Reading

section Leaf
variable (c : Converters) (pascal : String → String) (fp : List String) (vals : List Str)

/-- Walking a path that resolves to a scalar or repeated field: the loop returns what
binding that field returns, and afterwards the path addresses the bound field through
nested messages that are all set. -/
theorem populateLoop_leaf (path : List String) (m f : Value)
    (hp : peek pascal m path = some f) (hf : isLeaf f = true) :
    ∃ m1, populateLoop c pascal fp vals path m = (m1, (bindLeaf c fp vals f).2) ∧
      fieldAt pascal m1 path = some (bindLeaf c fp vals f).1 := by
  induction path generalizing m with
  | nil => simp [peek] at hp
  | cons s rest ih =>
    obtain ⟨fs, rfl⟩ := peek_some_struct pascal m f _ hp
    cases rest with
    | nil =>
      rw [peek_one] at hp
      cases f with
      | scalar x =>
        rw [populateLoop_scalar c pascal fp vals s [] fs x hp, populateLoop_nil]
        exact ⟨_, rfl, by simp [fieldAt, bindLeaf, FieldByName_setField_same _ _ _ _ hp]⟩
      | slice t e =>
        rw [populateLoop_slice c pascal fp vals s fs t e hp]
        exact ⟨_, rfl, by simp [fieldAt, bindLeaf, FieldByName_setField_same _ _ _ _ hp]⟩
      | invalid => simp [isLeaf] at hf
      | named nm x => simp [isLeaf] at hf
      | other k => simp [isLeaf] at hf
      | ptr t e => simp [isLeaf] at hf
      | struct fs1 => simp [isLeaf] at hf
    | cons s2 rest2 =>
      obtain ⟨g, inner, hfs, hg, hp1⟩ := peek_cons_cases pascal s s2 rest2 fs f hp
      obtain ⟨m1, h1, h2⟩ := ih _ hp1
      obtain ⟨fs1, rfl⟩ := fieldAt_some_struct pascal m1 _ _ h2
      rw [populateLoop_enter c pascal fp vals s _ fs g inner hfs hg, h1]
      refine ⟨_, rfl, ?_⟩
      rw [fieldAt_cons, FieldByName_setField_same _ _ _ _ hfs]
      simp only [Option.some_bind, enterSet_rewrap g inner fs1 hg]
      exact h2

end Leaf


section Top
variable (c : Converters) (pascal : String → String)

theorem ScalarKind.Kind_injective (a b : ScalarKind) (h : a.Kind = b.Kind) : a = b := by
  cases a <;> cases b <;> first | rfl | exact absurd h (by decide)

/-- A value whose kind has a converter is a scalar, of a basic or of a named type. -/
theorem scalar_of_convFromType (x : Value) (conv : Str → Except Error Scalar)
    (h : convFromType c x.Kind = some conv) :
    (∃ s, x = .scalar s) ∨ (∃ n s, x = .named n s) := by
  cases x with
  | scalar s => exact Or.inl ⟨s, rfl⟩
  | named n s => exact Or.inr ⟨n, s, rfl⟩
  | other k => cases k <;> simp [Value.Kind, OtherKind.Kind, convFromType] at h
  | invalid => simp [Value.Kind, convFromType] at h
  | slice t e => simp [Value.Kind, convFromType] at h
  | ptr t e => simp [Value.Kind, convFromType] at h
  | struct fs => simp [Value.Kind, convFromType] at h

/-- The converter registered for a kind returns values of that kind. -/
theorem convFromType_kind (s : Scalar) (conv : Str → Except Error Scalar) (v : Str)
    (x : Scalar) (h : convFromType c (Value.scalar s).Kind = some conv)
    (hv : conv v = .ok x) : x.kind = s.kind := by
  cases s <;>
    (simp only [Value.Kind, Scalar.kind, ScalarKind.Kind, convFromType,
        Option.some.injEq] at h
     subst h
     simp only [Except.map] at hv
     split at hv
     · exact Except.noConfusion hv
     · simp only [Except.ok.injEq] at hv
       subst hv
       rfl)

theorem convFromType_named (n : String) (s : Scalar) :
    convFromType c (Value.named n s).Kind = convFromType c (Value.scalar s).Kind := rfl

theorem convert_kind (K : ScalarKind) (v : Str) (x : Scalar)
    (h : convert c K.Kind v = .ok x) : x.kind = K := by
  cases K <;>
    (simp only [convert, ScalarKind.Kind, convFromType, Except.map] at h
     split at h
     · exact Except.noConfusion h
     · simp only [Except.ok.injEq] at h
       subst h
       rfl)

theorem Scalar.zero_kind (K : ScalarKind) : (Scalar.zero K).kind = K := by
  cases K <;> rfl

theorem Set_scalar (s x : Scalar) (h : x.kind = s.kind) :
    Set (.scalar s) x = some (.scalar x) := by
  simp [Set, h]

/-- On a field of a basic type, a value that parses is stored. -/
theorem populateField_scalar_ok (old x : Scalar) (v : Str)
    (h : convert c (Value.scalar old).Kind v = .ok x) :
    populateField c (.scalar old) v = (.scalar x, .nil) := by
  have hk : x.kind = old.kind := convert_kind c old.kind v x h
  unfold convert at h
  unfold populateField
  cases hreg : convFromType c (Value.scalar old).Kind with
  | none => simp [hreg] at h
  | some conv =>
    simp only [hreg] at h
    simp only [h, Set_scalar old x hk]

theorem populateQueryParameter_msg (t : GoType) (m : Value) (path : List String)
    (vals : List Str) :
    populateQueryParameter c pascal (.ptr t (some m)) path vals =
      (.ptr t (some (populateLoop c pascal path vals path m).1),
        (populateLoop c pascal path vals path m).2) := rfl

theorem PopulateQueryParameters_nil (msg : Value) (filter : List String → Bool) :
    PopulateQueryParameters c pascal msg [] filter = (msg, .nil) := by
  simp [PopulateQueryParameters]

theorem PopulateQueryParameters_excluded (msg : Value) (key : String) (vals : List Str)
    (rest : List (String × List Str)) (filter : List String → Bool)
    (h : filter (Split key) = true) :
    PopulateQueryParameters c pascal msg ((key, vals) :: rest) filter =
      PopulateQueryParameters c pascal msg rest filter := by
  simp [PopulateQueryParameters, h]

theorem PopulateQueryParameters_ok (msg msg1 : Value) (key : String) (vals : List Str)
    (rest : List (String × List Str)) (filter : List String → Bool)
    (h : filter (Split key) = false)
    (h1 : populateQueryParameter c pascal msg (Split key) vals = (msg1, .nil)) :
    PopulateQueryParameters c pascal msg ((key, vals) :: rest) filter =
      PopulateQueryParameters c pascal msg1 rest filter := by
  simp [PopulateQueryParameters, h, h1]

theorem PopulateQueryParameters_single (msg : Value) (key : String) (vals : List Str)
    (filter : List String → Bool) (h : filter (Split key) = false) :
    PopulateQueryParameters c pascal msg [(key, vals)] filter =
      populateQueryParameter c pascal msg (Split key) vals := by
  rw [PopulateQueryParameters]
  simp only [h, Bool.false_eq_true, if_false]
  rcases hres : populateQueryParameter c pascal msg (Split key) vals with ⟨msg1, r⟩
  cases r <;> simp [PopulateQueryParameters]

end Top

section Unknown
variable (c : Converters) (pascal : String → String) (fp : List String) (vals : List Str)

theorem nestedAt_some_struct (m r : Value) (s : String) (rest : List String)
    (h : nestedAt pascal m (s :: rest) = some r) : ∃ fs, m = .struct fs := by
  cases m with
  | struct fs => exact ⟨fs, rfl⟩
  | invalid => simp [nestedAt] at h
  | scalar x => simp [nestedAt] at h
  | named nm x => simp [nestedAt] at h
  | other k => simp [nestedAt] at h
  | slice t e => simp [nestedAt] at h
  | ptr t e => simp [nestedAt] at h

theorem nestedAt_cons_cases (s : String) (rest : List String)
    (fs : List (String × Value)) (r : Value)
    (h : nestedAt pascal (.struct fs) (s :: rest) = some r) :
    ∃ g inner, FieldByName fs (pascal s) = some g ∧ enter g = some inner ∧
      nestedAt pascal inner rest = some r := by
  rw [nestedAt] at h
  cases hg : FieldByName fs (pascal s) with
  | none => simp [hg] at h
  | some g =>
    cases hi : enter g with
    | none => simp [hg, hi] at h
    | some inner => exact ⟨g, inner, rfl, hi, by simpa [hg, hi] using h⟩

/-- A segment that names no field, after segments that resolve to nested messages: the
loop returns success, having allocated the unset nested messages before it. -/
theorem populateLoop_unknown (pre : List String) (s : String) (post : List String)
    (m : Value) (fs : List (String × Value))
    (hpre : nestedAt pascal m pre = some (.struct fs))
    (hs : FieldByName fs (pascal s) = none) :
    populateLoop c pascal fp vals (pre ++ s :: post) m = (allocated pascal m pre, .nil) := by
  induction pre generalizing m with
  | nil =>
    simp only [nestedAt, Option.some.injEq] at hpre
    subst hpre
    simpa [allocated] using populateLoop_notFound c pascal fp vals s post fs hs
  | cons p pre1 ih =>
    obtain ⟨fs0, rfl⟩ := nestedAt_some_struct pascal m _ p pre1 hpre
    obtain ⟨g, inner, hg, hi, hrest⟩ := nestedAt_cons_cases pascal p pre1 fs0 _ hpre
    rw [List.cons_append, populateLoop_enter c pascal fp vals p _ fs0 g inner hg hi,
      ih inner hrest]
    simp [allocated, hg, hi]

theorem allocated_allSet (pre : List String) (m : Value)
    (h : allSet pascal m pre = true) : allocated pascal m pre = m := by
  induction pre generalizing m with
  | nil => simp [allocated]
  | cons p pre1 ih =>
    cases m with
    | struct fs0 =>
      rw [allSet] at h
      cases hg : FieldByName fs0 (pascal p) with
      | none => simp [hg] at h
      | some g =>
        cases hi : enterSet g with
        | none => simp [hg, hi] at h
        | some inner =>
          simp only [hg, hi, Option.some_bind] at h
          rw [allocated]
          simp only [hg, enterSet_enter g inner hi, ih inner h, rewrap_enterSet g inner hi,
            setField_self fs0 _ g hg]
    | invalid => simp [allSet] at h
    | scalar x => simp [allSet] at h
    | named nm x => simp [allSet] at h
    | other k => simp [allSet] at h
    | slice t e => simp [allSet] at h
    | ptr t e => simp [allSet] at h

theorem allocated_enter (fs : List (String × Value)) (p : String) (pre : List String)
    (g inner : Value) (hg : FieldByName fs (pascal p) = some g)
    (hi : enter g = some inner) :
    allocated pascal (.struct fs) (p :: pre) =
      .struct (setField fs (pascal p) (rewrap g (allocated pascal inner pre))) := by
  rw [allocated]; simp only [hg, hi]

theorem allocated_absent (fs : List (String × Value)) (p : String) (pre : List String)
    (hg : (FieldByName fs (pascal p)).bind enter = none) :
    allocated pascal (.struct fs) (p :: pre) = .struct fs := by
  rw [allocated]
  cases h : FieldByName fs (pascal p) with
  | none => rfl
  | some g =>
    cases hi : enter g with
    | none => simp only [hi]
    | some inner => simp [h, hi] at hg

theorem allocated_struct (fs : List (String × Value)) (pre : List String) :
    ∃ fs1, allocated pascal (.struct fs) pre = .struct fs1 := by
  cases pre with
  | nil => exact ⟨fs, by simp [allocated]⟩
  | cons p pre1 =>
    cases h : (FieldByName fs (pascal p)).bind enter with
    | none => exact ⟨fs, allocated_absent pascal fs p pre1 h⟩
    | some inner =>
      cases hg : FieldByName fs (pascal p) with
      | none => simp [hg] at h
      | some g =>
        simp only [hg, Option.some_bind] at h
        exact ⟨_, allocated_enter pascal fs p pre1 g inner hg h⟩

theorem enter_rewrap_allocated (g inner : Value) (pre : List String)
    (h : enter g = some inner) :
    enter (rewrap g (allocated pascal inner pre)) = some (allocated pascal inner pre) := by
  cases g with
  | ptr t target => simp [rewrap, enter]
  | struct fs1 =>
    simp only [enter, Option.some.injEq] at h
    subst h
    obtain ⟨fs2, h2⟩ := allocated_struct pascal fs1 pre
    simp [rewrap, h2, enter]
  | invalid => simp [enter] at h
  | scalar x => simp [enter] at h
  | named nm x => simp [enter] at h
  | other k => simp [enter] at h
  | slice t e => simp [enter] at h

theorem rewrap_not_leaf (g inner : Value) (pre : List String) (f : Value)
    (h : enter g = some inner) (hf : isLeaf f = true) :
    rewrap g (allocated pascal inner pre) ≠ f ∧ g ≠ f := by
  cases g with
  | ptr t target =>
    constructor <;> (intro he; subst he; simp [rewrap, isLeaf] at hf)
  | struct fs1 =>
    simp only [enter, Option.some.injEq] at h
    subst h
    obtain ⟨fs2, h2⟩ := allocated_struct pascal fs1 pre
    constructor <;> (intro he; subst he; simp [rewrap, h2, isLeaf] at hf)
  | invalid => simp [enter] at h
  | scalar x => simp [enter] at h
  | named nm x => simp [enter] at h
  | other k => simp [enter] at h
  | slice t e => simp [enter] at h

/-- Allocating unset nested messages changes no scalar and no repeated field: each reads
as before, an unset nested message being read as empty. -/
theorem peek_allocated (pre path : List String) (m f : Value) (hf : isLeaf f = true) :
    peek pascal (allocated pascal m pre) path = some f ↔ peek pascal m path = some f := by
  induction pre generalizing m path with
  | nil => simp [allocated]
  | cons p pre1 ih =>
    cases m with
    | struct fs0 =>
      cases h : (FieldByName fs0 (pascal p)).bind enter with
      | none => rw [allocated_absent pascal fs0 p pre1 h]
      | some inner =>
        cases hg : FieldByName fs0 (pascal p) with
        | none => simp [hg] at h
        | some g =>
          have hi : enter g = some inner := by simpa [hg] using h
          rw [allocated_enter pascal fs0 p pre1 g inner hg hi]
          cases path with
          | nil => simp [peek]
          | cons q qs =>
            by_cases hq : pascal q = pascal p
            · cases qs with
              | nil =>
                rw [peek_one, peek_one, hq, FieldByName_setField_same _ _ _ _ hg, hg]
                have hn := rewrap_not_leaf pascal g inner pre1 f hi hf
                simp [hn.1, hn.2]
              | cons q2 qs2 =>
                rw [peek_cons, peek_cons, hq, FieldByName_setField_same _ _ _ _ hg, hg]
                simp only [Option.some_bind, enter_rewrap_allocated pascal g inner pre1 hi, hi]
                exact ih (q2 :: qs2) inner
            · cases qs with
              | nil =>
                rw [peek_one, peek_one, FieldByName_setField_other _ _ _ _ hq]
              | cons q2 qs2 =>
                rw [peek_cons, peek_cons, FieldByName_setField_other _ _ _ _ hq]
    | invalid => simp [allocated]
    | scalar x => simp [allocated]
    | named nm x => simp [allocated]
    | other k => simp [allocated]
    | slice t e => simp [allocated]
    | ptr t e => simp [allocated]

end Unknown

section Excluded
variable (c : Converters) (pascal : String → String)

theorem PopulateQueryParameters_drop_excluded (filter : List String → Bool)
    (pre post : List (String × List Str)) (key : String) (vals : List Str) (msg : Value)
    (h : filter (Split key) = true) :
    PopulateQueryParameters c pascal msg (pre ++ (key, vals) :: post) filter =
      PopulateQueryParameters c pascal msg (pre ++ post) filter := by
  induction pre generalizing msg with
  | nil => simpa using PopulateQueryParameters_excluded c pascal msg key vals post filter h
  | cons hd tl ih =>
    obtain ⟨k, vs⟩ := hd
    simp only [List.cons_append]
    rw [PopulateQueryParameters, PopulateQueryParameters]
    by_cases hk : filter (Split k) = true
    · simp only [hk, if_true]
      exact ih msg
    · simp only [hk, if_false]
      rcases populateQueryParameter c pascal msg (Split k) vs with ⟨msg1, r⟩
      cases r with
      | nil => exact ih msg1
      | error e => rfl
      | panic => rfl

theorem PopulateQueryParameters_all_excluded (filter : List String → Bool)
    (values : List (String × List Str)) (msg : Value)
    (h : ∀ kv ∈ values, filter (Split kv.1) = true) :
    PopulateQueryParameters c pascal msg values filter = (msg, .nil) := by
  induction values with
  | nil => exact PopulateQueryParameters_nil c pascal msg filter
  | cons hd tl ih =>
    obtain ⟨k, vs⟩ := hd
    rw [PopulateQueryParameters_excluded c pascal msg k vs tl filter
      (h (k, vs) (List.mem_cons_self _ _))]
    exact ih fun kv hkv => h kv (List.mem_cons_of_mem _ hkv)

end Excluded

section Repeated
variable (c : Converters)

theorem convFromType_scalar (K : ScalarKind) :
    convFromType c K.Kind = some (convert c K.Kind) := by
  cases K <;> rfl

/-- The loop over a run of values that all convert, on slots of the basic type the
converter returns: the slots receive the converted values in order, and the loop goes on
with the values after the run. -/
theorem fillSlice_run (conv : Str → Except Error Scalar) (K : ScalarKind) (pre : List Str)
    (xs : List Scalar) (rest : List Str) (i : Nat) (done todo : List Value)
    (hconv : pre.map conv = xs.map Except.ok) (hi : done.length = i)
    (hlen : pre.length ≤ todo.length)
    (hxs : ∀ x ∈ xs, x.kind = K)
    (htodo : ∀ z ∈ todo, ∃ s, z = Value.scalar s ∧ s.kind = K) :
    fillSlice conv (pre ++ rest) i (done ++ todo) =
      fillSlice conv rest (i + pre.length)
        ((done ++ xs.map Value.scalar) ++ todo.drop pre.length) := by
  induction pre generalizing xs i done todo with
  | nil =>
    cases xs with
    | nil => simp
    | cons x xs1 => simp at hconv
  | cons v vs ih =>
    cases xs with
    | nil => simp at hconv
    | cons x xs1 =>
      simp only [List.map_cons, List.cons.injEq] at hconv
      obtain ⟨hv, hvs⟩ := hconv
      cases todo with
      | nil => simp at hlen
      | cons z todo1 =>
        simp only [List.length_cons, Nat.add_le_add_iff_right] at hlen
        obtain ⟨s0, rfl, hs0⟩ := htodo z (List.mem_cons_self _ _)
        have hxk : x.kind = s0.kind := by
          rw [hxs x (List.mem_cons_self _ _), hs0]
        have hget : (done ++ Value.scalar s0 :: todo1).get? i = some (Value.scalar s0) := by
          subst hi
          rw [List.get?_eq_getElem?, List.getElem?_append_right (Nat.le_refl _)]
          simp
        have hset : (done ++ Value.scalar s0 :: todo1).set i (.scalar x) =
            (done ++ [.scalar x]) ++ todo1 := by
          subst hi
          simp [List.set_append]
        rw [List.cons_append, fillSlice]
        simp only [hv, hget, Option.some_bind, Set_scalar s0 x hxk, hset]
        rw [ih xs1 (i + 1) (done ++ [Value.scalar x]) todo1 hvs (by simp [hi]) hlen
          (fun y hy => hxs y (List.mem_cons_of_mem _ hy))
          (fun y hy => htodo y (List.mem_cons_of_mem _ hy))]
        simp [Nat.add_assoc, Nat.add_comm 1]

theorem convert_map_kind (K : ScalarKind) (vals : List Str) (xs : List Scalar)
    (hconv : vals.map (convert c K.Kind) = xs.map Except.ok) :
    ∀ x ∈ xs, x.kind = K := by
  induction vals generalizing xs with
  | nil =>
    cases xs with
    | nil => simp
    | cons x xs1 => simp at hconv
  | cons v vs ih =>
    cases xs with
    | nil => simp at hconv
    | cons x xs1 =>
      simp only [List.map_cons, List.cons.injEq] at hconv
      intro y hy
      rcases List.mem_cons.mp hy with rfl | hy1
      · exact convert_kind c K v y hconv.1
      · exact ih xs1 hconv.2 y hy1

theorem zero_slots (K : ScalarKind) (n : Nat) :
    ∀ z ∈ List.replicate n (zero (.scalar K)), ∃ s, z = Value.scalar s ∧ s.kind = K := by
  intro z hz
  rw [List.eq_of_mem_replicate hz]
  exact ⟨Scalar.zero K, rfl, Scalar.zero_kind K⟩

/-- All values convert: the repeated field holds the converted values, in order. -/
theorem populateRepeatedField_ok (K : ScalarKind) (prior : Option (List Value))
    (vals : List Str) (xs : List Scalar)
    (hconv : vals.map (convert c K.Kind) = xs.map Except.ok) :
    populateRepeatedField c (.slice (.scalar K) prior) vals =
      (.slice (.scalar K) (some (xs.map Value.scalar)), .nil) := by
  have h := fillSlice_run (convert c K.Kind) K vals xs [] 0 []
    (List.replicate vals.length (zero (.scalar K))) hconv rfl (by simp)
    (convert_map_kind c K vals xs hconv) (zero_slots K _)
  simp only [List.append_nil, List.nil_append, Nat.zero_add] at h
  simp only [populateRepeatedField, GoType.Kind, convFromType_scalar, h]
  simp [fillSlice]

/-- The value at index `pre.length` is the first that fails to convert: the slots below
hold the converted values, the others the zero value, and the error is returned. -/
theorem populateRepeatedField_error (K : ScalarKind) (prior : Option (List Value))
    (pre : List Str) (bad : Str) (post : List Str) (xs : List Scalar) (e : Error)
    (hconv : pre.map (convert c K.Kind) = xs.map Except.ok)
    (hbad : convert c K.Kind bad = .error e) :
    populateRepeatedField c (.slice (.scalar K) prior) (pre ++ bad :: post) =
      (.slice (.scalar K) (some (xs.map Value.scalar ++
          List.replicate (1 + post.length) (zero (.scalar K)))), .error e) := by
  have h := fillSlice_run (convert c K.Kind) K pre xs (bad :: post) 0 []
    (List.replicate (pre ++ bad :: post).length (zero (.scalar K))) hconv rfl (by simp)
    (convert_map_kind c K pre xs hconv) (zero_slots K _)
  simp only [List.nil_append, Nat.zero_add] at h
  have hdrop : List.drop pre.length
      (List.replicate (pre ++ bad :: post).length (zero (.scalar K))) =
      List.replicate (1 + post.length) (zero (.scalar K)) := by
    simp [List.drop_replicate, Nat.add_comm]
  simp only [populateRepeatedField, GoType.Kind, convFromType_scalar, h, hdrop]
  simp [fillSlice, hbad]

end Repeated

section FirstValue
variable (c : Converters) (pascal : String → String) (fp : List String)

end FirstValue

section TwoKeys
variable (c : Converters) (pascal : String → String)

/-- A two-segment path into a nested message: the scalar field named by the second
segment is set inside the message the nested field holds. -/
theorem populateLoop_nested_scalar (fp : List String) (a b : String)
    (fs ifs : List (String × Value)) (g : Value) (ob x : Scalar) (v : Str)
    (hg : FieldByName fs (pascal a) = some g) (hi : enter g = some (.struct ifs))
    (hb : FieldByName ifs (pascal b) = some (.scalar ob))
    (hv : convert c (Value.scalar ob).Kind v = .ok x) :
    populateLoop c pascal fp [v] [a, b] (.struct fs) =
      (.struct (setField fs (pascal a)
        (rewrap g (.struct (setField ifs (pascal b) (.scalar x))))), .nil) := by
  rw [populateLoop_enter c pascal fp [v] a [b] fs g _ hg hi,
    populateLoop_scalar c pascal fp [v] b [] ifs ob hb, populateLoop_nil]
  simp [afterLoop, populateField_scalar_ok c ob x v hv]

/-- Two keys into the same nested message, one after the other: both scalar fields are
set inside the one message held by the nested field. -/
theorem PopulateQueryParameters_two_keys (filter : List String → Bool) (t : GoType)
    (a s1 s2 k1 k2 : String) (fs ifs : List (String × Value)) (g : Value)
    (o1 o2 x1 x2 : Scalar) (v1 v2 : Str)
    (hk1 : Split k1 = [a, s1]) (hk2 : Split k2 = [a, s2])
    (hf1 : filter (Split k1) = false) (hf2 : filter (Split k2) = false)
    (hne : pascal s1 ≠ pascal s2)
    (hg : FieldByName fs (pascal a) = some g) (hi : enter g = some (.struct ifs))
    (h1 : FieldByName ifs (pascal s1) = some (.scalar o1))
    (h2 : FieldByName ifs (pascal s2) = some (.scalar o2))
    (hv1 : convert c (Value.scalar o1).Kind v1 = .ok x1)
    (hv2 : convert c (Value.scalar o2).Kind v2 = .ok x2) :
    PopulateQueryParameters c pascal (.ptr t (some (.struct fs)))
        [(k1, [v1]), (k2, [v2])] filter =
      (.ptr t (some (.struct (setField fs (pascal a) (rewrap g (.struct
        (setField (setField ifs (pascal s1) (.scalar x1)) (pascal s2) (.scalar x2))))))),
        .nil) := by
  have step1 : populateQueryParameter c pascal (.ptr t (some (.struct fs))) (Split k1) [v1] =
      (.ptr t (some (.struct (setField fs (pascal a)
        (rewrap g (.struct (setField ifs (pascal s1) (.scalar x1))))))), .nil) := by
    rw [populateQueryParameter_msg, hk1,
      populateLoop_nested_scalar c pascal _ a s1 fs ifs g o1 x1 v1 hg hi h1 hv1]
  rw [PopulateQueryParameters_ok c pascal _ _ k1 [v1] _ filter hf1 step1,
    PopulateQueryParameters_single c pascal _ _ _ _ hf2, populateQueryParameter_msg, hk2]
  have h2a : FieldByName (setField ifs (pascal s1) (.scalar x1)) (pascal s2) =
      some (.scalar o2) := by
    rw [FieldByName_setField_other _ _ _ _ (Ne.symm hne), h2]
  rw [populateLoop_nested_scalar c pascal _ a s2 _ _ _ o2 x2 v2
    (FieldByName_setField_same _ _ _ _ hg) (enter_rewrap g _ _ hi) h2a hv2]
  simp only [setField_overwrite, rewrap_rewrap]

end TwoKeys

section Stuck
variable (c : Converters) (pascal : String → String) (fp : List String) (vals : List Str)

/-- When the loop, arrived at the message the first segments lead to, returns without
changing that message, the whole walk has only allocated the unset nested messages on
the way. -/
theorem populateLoop_stuck (pre rest : List String) (m inner : Value) (r : Result)
    (hpre : nestedAt pascal m pre = some inner)
    (hstep : populateLoop c pascal fp vals rest inner = (inner, r)) :
    populateLoop c pascal fp vals (pre ++ rest) m = (allocated pascal m pre, r) := by
  induction pre generalizing m with
  | nil =>
    simp only [nestedAt, Option.some.injEq] at hpre
    subst hpre
    simpa [allocated] using hstep
  | cons p pre1 ih =>
    obtain ⟨fs0, rfl⟩ := nestedAt_some_struct pascal m _ p pre1 hpre
    obtain ⟨g, inner0, hg, hi, hrest⟩ := nestedAt_cons_cases pascal p pre1 fs0 _ hpre
    rw [List.cons_append, populateLoop_enter c pascal fp vals p _ fs0 g inner0 hg hi,
      ih inner0 hrest]
    simp [allocated, hg, hi]

/-- The field a path resolves to, in terms of the message its segments but the last
lead to. -/
theorem peek_append (pre : List String) (s : String) (m : Value) :
    peek pascal m (pre ++ [s]) =
      (nestedAt pascal m pre).bind fun inner =>
        match inner with
        | .struct fs => FieldByName fs (pascal s)
        | _ => none := by
  induction pre generalizing m with
  | nil =>
    cases m <;> simp [nestedAt, peek]
  | cons p pre1 ih =>
    cases m with
    | struct fs =>
      cases pre1 with
      | nil =>
        rw [List.cons_append, List.nil_append, peek_cons, nestedAt]
        cases (FieldByName fs (pascal p)).bind enter with
        | none => rfl
        | some inner => simpa using ih inner
      | cons p2 pre2 =>
        rw [List.cons_append, List.cons_append, peek_cons, nestedAt]
        cases (FieldByName fs (pascal p)).bind enter with
        | none => rfl
        | some inner => simpa using ih inner
    | invalid => simp [nestedAt, peek]
    | scalar x => simp [nestedAt, peek]
    | named nm x => simp [nestedAt, peek]
    | other k => simp [nestedAt, peek]
    | slice t e => simp [nestedAt, peek]
    | ptr t e => simp [nestedAt, peek]

/-- A repeated field before the end of the path: the loop returns the error for it and
leaves the message it is in unchanged. -/
theorem populateLoop_slice_mid (s s2 : String) (rest : List String)
    (fs : List (String × Value)) (t : GoType) (elems : Option (List Value))
    (h : FieldByName fs (pascal s) = some (.slice t elems)) :
    populateLoop c pascal fp vals (s :: s2 :: rest) (.struct fs) =
      (.struct fs, .error (.unexpectedRepeated fp)) := by
  simp [populateLoop, Value.Kind, h]

/-- A field of a kind the binder does not handle: the loop returns the error for it and
leaves the message it is in unchanged. -/
theorem populateLoop_other (s : String) (rest : List String)
    (fs : List (String × Value)) (k : OtherKind)
    (h : FieldByName fs (pascal s) = some (.other k)) :
    populateLoop c pascal fp vals (s :: rest) (.struct fs) =
      (.struct fs, .error (.unexpectedType k.Kind)) := by
  cases k <;> simp [populateLoop, Value.Kind, OtherKind.Kind, h]

end Stuck

section Field
variable (c : Converters) (pascal : String → String) (fp : List String) (vals : List Str)

/-- One iteration of the loop on a message: the field the segment names is replaced by
what `bindField` makes of it; a segment that names no field ends the walk. -/
theorem populateLoop_field (s : String) (rest : List String) (fs : List (String × Value)) :
    populateLoop c pascal fp vals (s :: rest) (.struct fs) =
      match FieldByName fs (pascal s) with
      | none => (.struct fs, .nil)
      | some f => (.struct (setField fs (pascal s) (bindField c pascal fp vals rest f).1),
          (bindField c pascal fp vals rest f).2) := by
  cases hf : FieldByName fs (pascal s) with
  | none => simpa using populateLoop_notFound c pascal fp vals s rest fs hf
  | some f =>
    cases f with
    | scalar x =>
      rw [populateLoop_scalar c pascal fp vals s rest fs x hf]
      cases x <;> rfl
    | named n x =>
      rw [populateLoop_named c pascal fp vals s rest fs n x hf]
      cases x <;> rfl
    | ptr t target =>
      rw [populateLoop_ptr c pascal fp vals s rest fs t target hf]
      rfl
    | struct inner =>
      rw [populateLoop_struct c pascal fp vals s rest fs inner hf]
      rfl
    | slice t e =>
      cases rest with
      | nil =>
        rw [populateLoop_slice c pascal fp vals s fs t e hf]
        rfl
      | cons s2 rest2 =>
        rw [populateLoop_slice_mid c pascal fp vals s s2 rest2 fs t e hf]
        simp [bindField, Value.Kind, setField_self fs _ _ hf]
    | other k =>
      rw [populateLoop_other c pascal fp vals s rest fs k hf]
      cases k <;> simp [bindField, Value.Kind, OtherKind.Kind, setField_self fs _ _ hf]
    | invalid =>
      simp [populateLoop, Value.Kind, hf, bindField, setField_self fs _ _ hf]

/-- Walking a path that resolves to a field: the loop returns what the last iteration
returns for that field, and afterwards the path addresses what that iteration made of
the field, through nested messages that are all set. -/
theorem populateLoop_last (path : List String) (m f : Value)
    (hp : peek pascal m path = some f) :
    ∃ m1, populateLoop c pascal fp vals path m = (m1, (bindField c pascal fp vals [] f).2) ∧
      fieldAt pascal m1 path = some (bindField c pascal fp vals [] f).1 := by
  induction path generalizing m with
  | nil => simp [peek] at hp
  | cons s rest ih =>
    obtain ⟨fs, rfl⟩ := peek_some_struct pascal m f _ hp
    cases rest with
    | nil =>
      rw [peek_one] at hp
      rw [populateLoop_field, hp]
      exact ⟨_, rfl, by rw [fieldAt_one, FieldByName_setField_same _ _ _ _ hp]⟩
    | cons s2 rest2 =>
      obtain ⟨g, inner, hfs, hg, hp1⟩ := peek_cons_cases pascal s s2 rest2 fs f hp
      obtain ⟨m1, h1, h2⟩ := ih _ hp1
      obtain ⟨fs1, rfl⟩ := fieldAt_some_struct pascal m1 _ _ h2
      rw [populateLoop_enter c pascal fp vals s _ fs g inner hfs hg, h1]
      refine ⟨_, rfl, ?_⟩
      rw [fieldAt_cons, FieldByName_setField_same _ _ _ _ hfs]
      simp only [Option.some_bind, enterSet_rewrap g inner fs1 hg]
      exact h2

theorem PopulateQueryParameters_append_ok (filter : List String → Bool)
    (pre rest : List (String × List Str)) (msg msg1 : Value)
    (h : PopulateQueryParameters c pascal msg pre filter = (msg1, .nil)) :
    PopulateQueryParameters c pascal msg (pre ++ rest) filter =
      PopulateQueryParameters c pascal msg1 rest filter := by
  induction pre generalizing msg with
  | nil =>
    rw [PopulateQueryParameters_nil] at h
    simp only [Prod.mk.injEq, and_true] at h
    subst h
    rfl
  | cons hd tl ih =>
    obtain ⟨k, vs⟩ := hd
    by_cases hk : filter (Split k) = true
    · rw [PopulateQueryParameters_excluded c pascal _ _ _ _ _ hk] at h
      rw [List.cons_append, PopulateQueryParameters_excluded c pascal _ _ _ _ _ hk]
      exact ih msg h
    · have hk1 : filter (Split k) = false := by simpa using hk
      rcases hres : populateQueryParameter c pascal msg (Split k) vs with ⟨msga, r⟩
      cases r with
      | nil =>
        rw [PopulateQueryParameters_ok c pascal _ _ _ _ _ _ hk1 hres] at h
        rw [List.cons_append, PopulateQueryParameters_ok c pascal _ _ _ _ _ _ hk1 hres]
        exact ih msga h
      | error e => simp [PopulateQueryParameters, hk1, hres] at h
      | panic => simp [PopulateQueryParameters, hk1, hres] at h

theorem PopulateQueryParameters_fail (filter : List String → Bool)
    (rest : List (String × List Str)) (msg msg1 : Value) (key : String) (vs : List Str)
    (r : Result) (hk : filter (Split key) = false)
    (hres : populateQueryParameter c pascal msg (Split key) vs = (msg1, r))
    (hr : r ≠ .nil) :
    PopulateQueryParameters c pascal msg ((key, vs) :: rest) filter = (msg1, r) := by
  cases r with
  | nil => exact absurd rfl hr
  | error e => simp [PopulateQueryParameters, hk, hres]
  | panic => simp [PopulateQueryParameters, hk, hres]

end Field

section Frame
variable (c : Converters) (pascal : String → String) (fp : List String) (vals : List Str)

end Frame

/-! ## Lemmas on shapes -/

section ShapeBasics

mutual
theorem shape_zero : ∀ t : GoType, shape (zero t) = shapeOfType t
  | .scalar k => by cases k <;> rfl
  | .named n k => by cases k <;> rfl
  | .other k => rfl
  | .slice e => rfl
  | .ptr e => rfl
  | .struct fs => by
    rw [zero, shape, shapeOfType, shapeFields_zeroFields fs]
theorem shapeFields_zeroFields :
    ∀ fs : List (String × GoType), shapeFields (zeroFields fs) = shapeOfFieldTypes fs
  | [] => rfl
  | (n, t) :: rest => by
    rw [zeroFields, shapeFields, shapeOfFieldTypes, shape_zero t,
      shapeFields_zeroFields rest]
end

theorem shape_ptr (t : GoType) (target : Option Value) :
    shape (.ptr t target) = .ptr (shape (target.getD (zero t))) := by
  cases target with
  | none => simp [shape, shape_zero]
  | some v => simp [shape]

theorem shape_struct (fs : List (String × Value)) :
    shape (.struct fs) = .struct (shapeFields fs) := by
  rw [shape]

theorem Kind_shape (x : Value) : (shape x).Kind = x.Kind := by
  cases x with
  | ptr t target => cases target <;> rfl
  | invalid => rfl
  | scalar s => rfl
  | named nm s => rfl
  | other k => rfl
  | slice t e => rfl
  | struct fs => rfl

theorem shape_Kind (x y : Value) (h : shape x = shape y) : x.Kind = y.Kind := by
  rw [← Kind_shape x, ← Kind_shape y, h]

end ShapeBasics

section ShapeFields

theorem FieldByName_shape (fs gs : List (String × Value))
    (h : shapeFields fs = shapeFields gs) (n : String) :
    (FieldByName fs n).map shape = (FieldByName gs n).map shape := by
  induction fs generalizing gs with
  | nil =>
    cases gs with
    | nil => rfl
    | cons hd tl => simp [shapeFields] at h
  | cons hd tl ih =>
    obtain ⟨n1, v1⟩ := hd
    cases gs with
    | nil => simp [shapeFields] at h
    | cons hd2 tl2 =>
      obtain ⟨n2, v2⟩ := hd2
      simp only [shapeFields, List.cons.injEq, Prod.mk.injEq] at h
      obtain ⟨⟨hn, hv⟩, htl⟩ := h
      subst hn
      by_cases hn1 : n1 = n
      · simp [FieldByName, hn1, hv]
      · simp [FieldByName, hn1, ih tl2 htl]

/-- Two messages of the same shape have the same fields: a name is a field of both or
of none, and the two fields have the same shape. -/
theorem FieldByName_shape_cases (fs gs : List (String × Value))
    (h : shapeFields fs = shapeFields gs) (n : String) :
    (FieldByName fs n = none ∧ FieldByName gs n = none) ∨
      ∃ f g, FieldByName fs n = some f ∧ FieldByName gs n = some g ∧ shape f = shape g := by
  have hm := FieldByName_shape fs gs h n
  cases hf : FieldByName fs n with
  | none =>
    cases hg : FieldByName gs n with
    | none => exact Or.inl ⟨rfl, rfl⟩
    | some g => simp [hf, hg] at hm
  | some f =>
    cases hg : FieldByName gs n with
    | none => simp [hf, hg] at hm
    | some g =>
      refine Or.inr ⟨f, g, rfl, rfl, ?_⟩
      simpa [hf, hg] using hm

theorem shapeFields_setField (fs : List (String × Value)) (n : String) (x f : Value)
    (hf : FieldByName fs n = some f) (hx : shape x = shape f) :
    shapeFields (setField fs n x) = shapeFields fs := by
  induction fs with
  | nil => simp [FieldByName] at hf
  | cons hd tl ih =>
    obtain ⟨n1, v1⟩ := hd
    by_cases hn : n1 = n
    · simp only [FieldByName, hn, if_true, Option.some.injEq] at hf
      subst hf
      simp [setField, hn, shapeFields, hx]
    · simp only [FieldByName, hn, if_false] at hf
      simp [setField, hn, shapeFields, ih hf]

end ShapeFields

section ShapeInversion

theorem shape_eq_scalar (g : Value) (k : ScalarKind) (h : shape g = .scalar k) :
    ∃ y, g = .scalar y ∧ y.kind = k := by
  cases g with
  | scalar y => exact ⟨y, rfl, by simpa [shape] using h⟩
  | named nm y => simp [shape] at h
  | ptr t target => cases target <;> simp [shape] at h
  | invalid => simp [shape] at h
  | other k1 => simp [shape] at h
  | slice t e => simp [shape] at h
  | struct fs => simp [shape] at h

theorem shape_eq_named (g : Value) (n : String) (k : ScalarKind)
    (h : shape g = .named n k) : ∃ y, g = .named n y ∧ y.kind = k := by
  cases g with
  | named nm y =>
    simp only [shape, Shape.named.injEq] at h
    obtain ⟨h1, h2⟩ := h
    subst h1
    exact ⟨y, rfl, h2⟩
  | scalar y => simp [shape] at h
  | ptr t target => cases target <;> simp [shape] at h
  | invalid => simp [shape] at h
  | other k1 => simp [shape] at h
  | slice t e => simp [shape] at h
  | struct fs => simp [shape] at h

theorem shape_eq_other (g : Value) (k : OtherKind) (h : shape g = .other k) :
    g = .other k := by
  cases g with
  | other k1 => simpa [shape] using h
  | ptr t target => cases target <;> simp [shape] at h
  | invalid => simp [shape] at h
  | scalar y => simp [shape] at h
  | named nm y => simp [shape] at h
  | slice t e => simp [shape] at h
  | struct fs => simp [shape] at h

theorem shape_eq_invalid (g : Value) (h : shape g = .invalid) : g = .invalid := by
  cases g with
  | invalid => rfl
  | ptr t target => cases target <;> simp [shape] at h
  | other k1 => simp [shape] at h
  | scalar y => simp [shape] at h
  | named nm y => simp [shape] at h
  | slice t e => simp [shape] at h
  | struct fs => simp [shape] at h

theorem shape_eq_slice (g : Value) (et : GoType) (h : shape g = .slice et) :
    ∃ e, g = .slice et e := by
  cases g with
  | slice t e => exact ⟨e, by simp only [shape, Shape.slice.injEq] at h; rw [h]⟩
  | ptr t target => cases target <;> simp [shape] at h
  | invalid => simp [shape] at h
  | other k1 => simp [shape] at h
  | scalar y => simp [shape] at h
  | named nm y => simp [shape] at h
  | struct fs => simp [shape] at h

theorem shape_eq_ptr (g : Value) (sh : Shape) (h : shape g = .ptr sh) :
    ∃ t a, g = .ptr t a ∧ shape (a.getD (zero t)) = sh := by
  cases g with
  | ptr t target =>
    refine ⟨t, target, rfl, ?_⟩
    rw [shape_ptr] at h
    simpa using h
  | slice t e => simp [shape] at h
  | invalid => simp [shape] at h
  | other k1 => simp [shape] at h
  | scalar y => simp [shape] at h
  | named nm y => simp [shape] at h
  | struct fs => simp [shape] at h

theorem shape_eq_struct (g : Value) (sfs : List (String × Shape))
    (h : shape g = .struct sfs) : ∃ gs, g = .struct gs ∧ shapeFields gs = sfs := by
  cases g with
  | struct gs => exact ⟨gs, rfl, by simpa [shape] using h⟩
  | ptr t target => cases target <;> simp [shape] at h
  | invalid => simp [shape] at h
  | other k1 => simp [shape] at h
  | scalar y => simp [shape] at h
  | named nm y => simp [shape] at h
  | slice t e => simp [shape] at h

end ShapeInversion

section Leaves
variable (c : Converters)

/-- The code after the loop, on the values of one shape: either it leaves every one of
them as it is and returns the same result, or it puts the same scalar in place of every
one of them and returns success. -/
theorem afterLoop_uniform (fp : List String) (vals : List Str) (x : Value) :
    (∃ r, ∀ y, shape y = shape x → afterLoop c fp vals y = (y, r)) ∨
      (∃ s, shape (.scalar s) = shape x ∧
        ∀ y, shape y = shape x → afterLoop c fp vals y = (.scalar s, .nil)) := by
  cases vals with
  | nil => exact Or.inl ⟨_, fun y _ => rfl⟩
  | cons v more =>
    cases hreg : convFromType c x.Kind with
    | none =>
      refine Or.inl ⟨.error (.unsupportedFieldType x.Kind), fun y hy => ?_⟩
      simp [afterLoop, populateField, shape_Kind y x hy, hreg]
    | some conv =>
      cases hv : conv v with
      | error e =>
        refine Or.inl ⟨.error e, fun y hy => ?_⟩
        simp [afterLoop, populateField, shape_Kind y x hy, hreg, hv]
      | ok s =>
        rcases scalar_of_convFromType c x conv hreg with ⟨s0, rfl⟩ | ⟨n, s0, rfl⟩
        · have hk : s.kind = s0.kind := convFromType_kind c s0 conv v s hreg hv
          refine Or.inr ⟨s, by simp [shape, hk], fun y hy => ?_⟩
          obtain ⟨y0, rfl, hy0⟩ := shape_eq_scalar y s0.kind hy
          have hreg1 : convFromType c (Value.scalar y0).Kind = some conv := by
            rw [shape_Kind _ _ hy]
            exact hreg
          simp [afterLoop, populateField, hreg1, hv, Set_scalar y0 s (hk.trans hy0.symm)]
        · refine Or.inl ⟨.panic, fun y hy => ?_⟩
          obtain ⟨y0, rfl, -⟩ := shape_eq_named y n s0.kind hy
          have hreg1 : convFromType c (Value.named n y0).Kind = some conv := by
            rw [shape_Kind _ _ hy]
            exact hreg
          simp [afterLoop, populateField, hreg1, hv, Set]

/-- The function `populateRepeatedField` on the repeated fields of one element type:
either it leaves every one of them as it is and returns the same result, or it gives
every one of them the same content and returns the same result. -/
theorem populateRepeatedField_uniform (vals : List Str) (et : GoType) :
    (∃ r, ∀ e, populateRepeatedField c (.slice et e) vals = (.slice et e, r)) ∨
      (∃ filled r, ∀ e,
        populateRepeatedField c (.slice et e) vals = (.slice et (some filled), r)) := by
  cases hreg : convFromType c et.Kind with
  | none =>
    exact Or.inl ⟨.error (.unsupportedFieldType et.Kind), fun e => by
      simp [populateRepeatedField, hreg]⟩
  | some conv =>
    exact Or.inr ⟨(fillSlice conv vals 0 (List.replicate vals.length (zero et))).1,
      (fillSlice conv vals 0 (List.replicate vals.length (zero et))).2, fun e => by
        simp [populateRepeatedField, hreg]⟩

end Leaves

section FieldForms
variable (c : Converters) (pascal : String → String) (fp : List String) (vals : List Str)

theorem bindField_scalar (rest : List String) (x : Scalar) :
    bindField c pascal fp vals rest (.scalar x) =
      populateLoop c pascal fp vals rest (.scalar x) := by
  cases x <;> rfl

theorem bindField_named (rest : List String) (n : String) (x : Scalar) :
    bindField c pascal fp vals rest (.named n x) =
      populateLoop c pascal fp vals rest (.named n x) := by
  cases x <;> rfl

theorem bindField_struct (rest : List String) (fs : List (String × Value)) :
    bindField c pascal fp vals rest (.struct fs) =
      populateLoop c pascal fp vals rest (.struct fs) := rfl

theorem bindField_ptr (rest : List String) (t : GoType) (a : Option Value) :
    bindField c pascal fp vals rest (.ptr t a) =
      (.ptr t (some (populateLoop c pascal fp vals rest (a.getD (zero t))).1),
        (populateLoop c pascal fp vals rest (a.getD (zero t))).2) := rfl

theorem bindField_slice_last (t : GoType) (e : Option (List Value)) :
    bindField c pascal fp vals [] (.slice t e) =
      populateRepeatedField c (.slice t e) vals := rfl

theorem bindField_slice_mid (s : String) (rest : List String) (t : GoType)
    (e : Option (List Value)) :
    bindField c pascal fp vals (s :: rest) (.slice t e) =
      (.slice t e, .error (.unexpectedRepeated fp)) := rfl

theorem bindField_other (rest : List String) (k : OtherKind) :
    bindField c pascal fp vals rest (.other k) =
      (.other k, .error (.unexpectedType k.Kind)) := by
  cases k <;> rfl

theorem bindField_invalid (rest : List String) :
    bindField c pascal fp vals rest .invalid =
      (.invalid, .error (.unexpectedType .Invalid)) := rfl

/-- A segment on a value that is not a message: the loop leaves the value as it is and
fails, with an error when more segments follow and with a panic when none does. -/
theorem populateLoop_nonstruct (s : String) (rest : List String) (x : Value)
    (h : ∀ fs, x ≠ .struct fs) :
    populateLoop c pascal fp vals (s :: rest) x =
      (x, if rest.isEmpty then .panic else .error (.nonAggregate fp)) := by
  cases x with
  | struct fs => exact absurd rfl (h fs)
  | invalid => cases rest <;> simp [populateLoop, Value.Kind]
  | scalar y => cases rest <;> cases y <;> simp [populateLoop, Value.Kind, Scalar.kind,
      ScalarKind.Kind]
  | named nm y => cases rest <;> cases y <;> simp [populateLoop, Value.Kind, Scalar.kind,
      ScalarKind.Kind]
  | other k => cases rest <;> cases k <;> simp [populateLoop, Value.Kind, OtherKind.Kind]
  | slice t e => cases rest <;> simp [populateLoop, Value.Kind]
  | ptr t e => cases rest <;> simp [populateLoop, Value.Kind]

/-- On the fields of one shape that are neither scalars, messages nor pointers, an
iteration of the loop either leaves every one of them as it is, or gives every one of
them the same content; and it returns the same result for all. -/
theorem bindField_uniform (rest : List String) (f : Value)
    (hs : ∀ x, f ≠ .scalar x) (hn : ∀ n x, f ≠ .named n x) (hm : ∀ fs, f ≠ .struct fs)
    (hp : ∀ t a, f ≠ .ptr t a) :
    (∃ r, ∀ g, shape g = shape f → bindField c pascal fp vals rest g = (g, r)) ∨
      (∃ v r, shape v = shape f ∧
        ∀ g, shape g = shape f → bindField c pascal fp vals rest g = (v, r)) := by
  cases f with
  | scalar x => exact absurd rfl (hs x)
  | named n x => exact absurd rfl (hn n x)
  | struct fs => exact absurd rfl (hm fs)
  | ptr t a => exact absurd rfl (hp t a)
  | invalid =>
    refine Or.inl ⟨.error (.unexpectedType .Invalid), fun g hg => ?_⟩
    rw [shape_eq_invalid g hg, bindField_invalid]
  | other k =>
    refine Or.inl ⟨.error (.unexpectedType k.Kind), fun g hg => ?_⟩
    rw [shape_eq_other g k hg, bindField_other]
  | slice t e =>
    cases rest with
    | cons s2 rest2 =>
      refine Or.inl ⟨.error (.unexpectedRepeated fp), fun g hg => ?_⟩
      obtain ⟨e1, rfl⟩ := shape_eq_slice g t hg
      rw [bindField_slice_mid]
    | nil =>
      rcases populateRepeatedField_uniform c vals t with ⟨r, hr⟩ | ⟨filled, r, hr⟩
      · refine Or.inl ⟨r, fun g hg => ?_⟩
        obtain ⟨e1, rfl⟩ := shape_eq_slice g t hg
        rw [bindField_slice_last, hr]
      · refine Or.inr ⟨.slice t (some filled), r, rfl, fun g hg => ?_⟩
        obtain ⟨e1, rfl⟩ := shape_eq_slice g t hg
        rw [bindField_slice_last, hr]

end FieldForms

section ShapeKept
variable (c : Converters) (pascal : String → String) (fp : List String) (vals : List Str)

theorem bindField_shape_of (rest : List String)
    (ih : ∀ x y, shape x = shape y →
      shape (populateLoop c pascal fp vals rest x).1 = shape x ∧
        (populateLoop c pascal fp vals rest x).2 = (populateLoop c pascal fp vals rest y).2)
    (f g : Value) (h : shape f = shape g) :
    shape (bindField c pascal fp vals rest f).1 = shape f ∧
      (bindField c pascal fp vals rest f).2 = (bindField c pascal fp vals rest g).2 := by
  cases f with
  | scalar x =>
    obtain ⟨y, rfl, -⟩ := shape_eq_scalar g x.kind h.symm
    rw [bindField_scalar, bindField_scalar]
    exact ih _ _ h
  | named n x =>
    obtain ⟨y, rfl, -⟩ := shape_eq_named g n x.kind h.symm
    rw [bindField_named, bindField_named]
    exact ih _ _ h
  | struct fs =>
    obtain ⟨gs, rfl, -⟩ := shape_eq_struct g _ (h.symm.trans (shape_struct fs))
    rw [bindField_struct, bindField_struct]
    exact ih _ _ h
  | ptr t a =>
    obtain ⟨t1, b, rfl, hb⟩ := shape_eq_ptr g _ (h.symm.trans (shape_ptr t a))
    rw [bindField_ptr, bindField_ptr]
    have hi := ih (a.getD (zero t)) (b.getD (zero t1)) hb.symm
    refine ⟨?_, hi.2⟩
    rw [shape_ptr, shape_ptr]
    simp only [Option.getD_some]
    rw [hi.1]
  | invalid =>
    rcases bindField_uniform c pascal fp vals rest .invalid (fun _ => Value.noConfusion)
      (fun _ _ => Value.noConfusion) (fun _ => Value.noConfusion)
      (fun _ _ => Value.noConfusion) with ⟨r, hr⟩ | ⟨v, r, hv, hr⟩
    · rw [hr _ rfl, hr g h.symm]; exact ⟨rfl, rfl⟩
    · rw [hr _ rfl, hr g h.symm]; exact ⟨hv, rfl⟩
  | other k =>
    rcases bindField_uniform c pascal fp vals rest (.other k) (fun _ => Value.noConfusion)
      (fun _ _ => Value.noConfusion) (fun _ => Value.noConfusion)
      (fun _ _ => Value.noConfusion) with ⟨r, hr⟩ | ⟨v, r, hv, hr⟩
    · rw [hr _ rfl, hr g h.symm]; exact ⟨rfl, rfl⟩
    · rw [hr _ rfl, hr g h.symm]; exact ⟨hv, rfl⟩
  | slice t e =>
    rcases bindField_uniform c pascal fp vals rest (.slice t e) (fun _ => Value.noConfusion)
      (fun _ _ => Value.noConfusion) (fun _ => Value.noConfusion)
      (fun _ _ => Value.noConfusion) with ⟨r, hr⟩ | ⟨v, r, hv, hr⟩
    · rw [hr _ rfl, hr g h.symm]; exact ⟨rfl, rfl⟩
    · rw [hr _ rfl, hr g h.symm]; exact ⟨hv, rfl⟩

/-- The loop keeps the shape of the value it walks, and what it returns depends on that
shape only, not on the contents. -/
theorem populateLoop_shape (path : List String) (x y : Value) (h : shape x = shape y) :
    shape (populateLoop c pascal fp vals path x).1 = shape x ∧
      (populateLoop c pascal fp vals path x).2 = (populateLoop c pascal fp vals path y).2 := by
  induction path generalizing x y with
  | nil =>
    rw [populateLoop_nil, populateLoop_nil]
    rcases afterLoop_uniform c fp vals x with ⟨r, hr⟩ | ⟨s, hs, hr⟩
    · rw [hr x rfl, hr y h.symm]; exact ⟨rfl, rfl⟩
    · rw [hr x rfl, hr y h.symm]; exact ⟨hs, rfl⟩
  | cons s rest ih =>
    by_cases hx : ∃ fs, x = .struct fs
    · obtain ⟨fs, rfl⟩ := hx
      obtain ⟨gs, rfl, hgs⟩ := shape_eq_struct y _ (h.symm.trans (shape_struct fs))
      rw [populateLoop_field, populateLoop_field]
      rcases FieldByName_shape_cases fs gs hgs.symm (pascal s) with
        ⟨hf, hg⟩ | ⟨f, g, hf, hg, hfg⟩
      · rw [hf, hg]; exact ⟨rfl, rfl⟩
      · rw [hf, hg]
        have hb := bindField_shape_of c pascal fp vals rest ih f g hfg
        refine ⟨?_, hb.2⟩
        rw [shape_struct, shape_struct, shapeFields_setField fs _ _ f hf hb.1]
    · have hx1 : ∀ fs, x ≠ .struct fs := fun fs hfs => hx ⟨fs, hfs⟩
      have hy1 : ∀ gs, y ≠ .struct gs := by
        intro gs hgs
        subst hgs
        obtain ⟨fs, hfs, -⟩ := shape_eq_struct x _ (h.trans (shape_struct gs))
        exact hx ⟨fs, hfs⟩
      rw [populateLoop_nonstruct c pascal fp vals s rest x hx1,
        populateLoop_nonstruct c pascal fp vals s rest y hy1]
      exact ⟨rfl, rfl⟩

theorem populateLoop_shape_fst (path : List String) (x : Value) :
    shape (populateLoop c pascal fp vals path x).1 = shape x :=
  (populateLoop_shape c pascal fp vals path x x rfl).1

theorem populateLoop_shape_snd (path : List String) (x y : Value) (h : shape x = shape y) :
    (populateLoop c pascal fp vals path x).2 = (populateLoop c pascal fp vals path y).2 :=
  (populateLoop_shape c pascal fp vals path x y h).2

theorem bindField_shape_fst (rest : List String) (f : Value) :
    shape (bindField c pascal fp vals rest f).1 = shape f :=
  (bindField_shape_of c pascal fp vals rest
    (fun x y h => populateLoop_shape c pascal fp vals rest x y h) f f rfl).1

end ShapeKept

section Idempotent
variable (c : Converters) (pascal : String → String) (fp : List String) (vals : List Str)

theorem bindField_idem_of (rest : List String)
    (ih : ∀ x, populateLoop c pascal fp vals rest (populateLoop c pascal fp vals rest x).1 =
      populateLoop c pascal fp vals rest x)
    (f : Value) :
    bindField c pascal fp vals rest (bindField c pascal fp vals rest f).1 =
      bindField c pascal fp vals rest f := by
  cases f with
  | scalar x =>
    obtain ⟨y, hy, -⟩ := shape_eq_scalar _ x.kind
      (populateLoop_shape_fst c pascal fp vals rest (.scalar x))
    rw [bindField_scalar, hy, bindField_scalar, ← hy]
    exact ih _
  | named n x =>
    obtain ⟨y, hy, -⟩ := shape_eq_named _ n x.kind
      (populateLoop_shape_fst c pascal fp vals rest (.named n x))
    rw [bindField_named, hy, bindField_named, ← hy]
    exact ih _
  | struct fs =>
    obtain ⟨gs, hy, -⟩ := shape_eq_struct _ _
      ((populateLoop_shape_fst c pascal fp vals rest (.struct fs)).trans (shape_struct fs))
    rw [bindField_struct, hy, bindField_struct, ← hy]
    exact ih _
  | ptr t a =>
    rw [bindField_ptr, bindField_ptr]
    simp only [Option.getD_some]
    rw [ih]
  | invalid =>
    rcases bindField_uniform c pascal fp vals rest .invalid (fun _ => Value.noConfusion)
      (fun _ _ => Value.noConfusion) (fun _ => Value.noConfusion)
      (fun _ _ => Value.noConfusion) with ⟨r, hr⟩ | ⟨v, r, hv, hr⟩
    · rw [hr _ rfl, hr _ rfl]
    · rw [hr _ rfl, hr v hv]
  | other k =>
    rcases bindField_uniform c pascal fp vals rest (.other k) (fun _ => Value.noConfusion)
      (fun _ _ => Value.noConfusion) (fun _ => Value.noConfusion)
      (fun _ _ => Value.noConfusion) with ⟨r, hr⟩ | ⟨v, r, hv, hr⟩
    · rw [hr _ rfl, hr _ rfl]
    · rw [hr _ rfl, hr v hv]
  | slice t e =>
    rcases bindField_uniform c pascal fp vals rest (.slice t e) (fun _ => Value.noConfusion)
      (fun _ _ => Value.noConfusion) (fun _ => Value.noConfusion)
      (fun _ _ => Value.noConfusion) with ⟨r, hr⟩ | ⟨v, r, hv, hr⟩
    · rw [hr _ rfl, hr _ rfl]
    · rw [hr _ rfl, hr v hv]

/-- Binding one key a second time returns the same result and changes nothing more. -/
theorem populateLoop_idem (path : List String) (x : Value) :
    populateLoop c pascal fp vals path (populateLoop c pascal fp vals path x).1 =
      populateLoop c pascal fp vals path x := by
  induction path generalizing x with
  | nil =>
    rw [populateLoop_nil, populateLoop_nil]
    rcases afterLoop_uniform c fp vals x with ⟨r, hr⟩ | ⟨s, hs, hr⟩
    · rw [hr x rfl, hr x rfl]
    · rw [hr x rfl, hr _ hs]
  | cons s rest ih =>
    by_cases hx : ∃ fs, x = .struct fs
    · obtain ⟨fs, rfl⟩ := hx
      rw [populateLoop_field]
      cases hf : FieldByName fs (pascal s) with
      | none =>
        simp only
        rw [populateLoop_field, hf]
      | some f =>
        simp only
        rw [populateLoop_field, FieldByName_setField_same _ _ _ _ hf]
        simp only
        rw [bindField_idem_of c pascal fp vals rest ih f, setField_overwrite]
    · have hx1 : ∀ fs, x ≠ .struct fs := fun fs hfs => hx ⟨fs, hfs⟩
      rw [populateLoop_nonstruct c pascal fp vals s rest x hx1]
      simp only
      rw [populateLoop_nonstruct c pascal fp vals s rest x hx1]

end Idempotent

section Absorb
variable (c : Converters) (pascal : String → String)
variable (fpk : List String) (vk : List Str) (fpj : List String) (vj : List Str)

theorem bindField_pass (fp : List String) (vals : List Str) (rest : List String) (z : Value)
    (hz : (∃ k, shape z = .scalar k) ∨ (∃ n k, shape z = .named n k) ∨
      (∃ sfs, shape z = .struct sfs)) :
    bindField c pascal fp vals rest z = populateLoop c pascal fp vals rest z := by
  rcases hz with ⟨k, hk⟩ | ⟨n, k, hk⟩ | ⟨sfs, hs⟩
  · obtain ⟨y, rfl, -⟩ := shape_eq_scalar z k hk
    exact bindField_scalar c pascal fp vals rest y
  · obtain ⟨y, rfl, -⟩ := shape_eq_named z n k hk
    exact bindField_named c pascal fp vals rest n y
  · obtain ⟨gs, rfl, -⟩ := shape_eq_struct z sfs hs
    rfl

theorem setField_congr (fs gs : List (String × Value)) (n : String) (a b : Value)
    (f g : Value) (hf : FieldByName fs n = some f) (hg : FieldByName gs n = some g)
    (h : setField fs n a = setField gs n b) :
    a = b ∧ (∀ z, setField fs n z = setField gs n z) ∧
      (∀ n1, n1 ≠ n → FieldByName fs n1 = FieldByName gs n1) := by
  refine ⟨?_, fun z => ?_, fun n1 hn => ?_⟩
  · have h1 := congrArg (fun l => FieldByName l n) h
    simp only [FieldByName_setField_same _ _ _ _ hf, FieldByName_setField_same _ _ _ _ hg,
      Option.some.injEq] at h1
    exact h1
  · have h1 := congrArg (fun l => setField l n z) h
    simpa only [setField_overwrite] using h1
  · have h1 := congrArg (fun l => FieldByName l n1) h
    simpa only [FieldByName_setField_other _ _ _ _ hn] using h1

theorem bindField_absorb_of (restk : List String)
    (ih : ∀ pj x y, shape x = shape y →
      (populateLoop c pascal fpk vk restk x).1 = (populateLoop c pascal fpk vk restk y).1 →
      (populateLoop c pascal fpk vk restk (populateLoop c pascal fpj vj pj x).1).1 =
        (populateLoop c pascal fpk vk restk (populateLoop c pascal fpj vj pj y).1).1)
    (restj : List String) (f g : Value) (h : shape f = shape g)
    (hk : (bindField c pascal fpk vk restk f).1 = (bindField c pascal fpk vk restk g).1) :
    (bindField c pascal fpk vk restk (bindField c pascal fpj vj restj f).1).1 =
      (bindField c pascal fpk vk restk (bindField c pascal fpj vj restj g).1).1 := by
  have hjf := bindField_shape_fst c pascal fpj vj restj f
  have hjg := bindField_shape_fst c pascal fpj vj restj g
  cases f with
  | scalar x =>
    obtain ⟨y, rfl, hy⟩ := shape_eq_scalar g x.kind h.symm
    have hg : shape (Value.scalar y) = .scalar x.kind := by rw [← h]; rfl
    rw [bindField_pass c pascal fpk vk restk _ (Or.inl ⟨_, hjf⟩),
      bindField_pass c pascal fpk vk restk _ (Or.inl ⟨_, hjg.trans hg⟩),
      bindField_scalar, bindField_scalar]
    rw [bindField_scalar, bindField_scalar] at hk
    exact ih restj _ _ h hk
  | named n x =>
    obtain ⟨y, rfl, hy⟩ := shape_eq_named g n x.kind h.symm
    have hg : shape (Value.named n y) = .named n x.kind := by rw [← h]; rfl
    rw [bindField_pass c pascal fpk vk restk _ (Or.inr (Or.inl ⟨_, _, hjf⟩)),
      bindField_pass c pascal fpk vk restk _ (Or.inr (Or.inl ⟨_, _, hjg.trans hg⟩)),
      bindField_named, bindField_named]
    rw [bindField_named, bindField_named] at hk
    exact ih restj _ _ h hk
  | struct fs =>
    obtain ⟨gs, rfl, hgs⟩ := shape_eq_struct g _ (h.symm.trans (shape_struct fs))
    rw [bindField_pass c pascal fpk vk restk _
        (Or.inr (Or.inr ⟨_, hjf.trans (shape_struct fs)⟩)),
      bindField_pass c pascal fpk vk restk _
        (Or.inr (Or.inr ⟨_, hjg.trans (shape_struct gs)⟩)),
      bindField_struct, bindField_struct]
    rw [bindField_struct, bindField_struct] at hk
    exact ih restj _ _ h hk
  | ptr t a =>
    obtain ⟨t1, b, rfl, hb⟩ := shape_eq_ptr g _ (h.symm.trans (shape_ptr t a))
    rw [bindField_ptr, bindField_ptr] at hk
    simp only [Value.ptr.injEq, Option.some.injEq] at hk
    obtain ⟨ht, hk1⟩ := hk
    subst ht
    rw [bindField_ptr, bindField_ptr, bindField_ptr, bindField_ptr]
    simp only [Option.getD_some]
    rw [ih restj _ _ hb.symm hk1]
  | invalid =>
    rcases bindField_uniform c pascal fpk vk restk .invalid (fun _ => Value.noConfusion)
      (fun _ _ => Value.noConfusion) (fun _ => Value.noConfusion)
      (fun _ _ => Value.noConfusion) with ⟨r, hr⟩ | ⟨v, r, hv, hr⟩
    · rw [hr _ rfl, hr g h.symm] at hk
      simp only at hk
      subst hk
      rfl
    · rw [hr _ hjf, hr _ (hjg.trans h.symm)]
  | other k =>
    rcases bindField_uniform c pascal fpk vk restk (.other k) (fun _ => Value.noConfusion)
      (fun _ _ => Value.noConfusion) (fun _ => Value.noConfusion)
      (fun _ _ => Value.noConfusion) with ⟨r, hr⟩ | ⟨v, r, hv, hr⟩
    · rw [hr _ rfl, hr g h.symm] at hk
      simp only at hk
      subst hk
      rfl
    · rw [hr _ hjf, hr _ (hjg.trans h.symm)]
  | slice t e =>
    rcases bindField_uniform c pascal fpk vk restk (.slice t e) (fun _ => Value.noConfusion)
      (fun _ _ => Value.noConfusion) (fun _ => Value.noConfusion)
      (fun _ _ => Value.noConfusion) with ⟨r, hr⟩ | ⟨v, r, hv, hr⟩
    · rw [hr _ rfl, hr g h.symm] at hk
      simp only at hk
      subst hk
      rfl
    · rw [hr _ hjf, hr _ (hjg.trans h.symm)]

end Absorb

section AbsorbLoop
variable (c : Converters) (pascal : String → String)
variable (fpk : List String) (vk : List Str) (fpj : List String) (vj : List Str)

/-- When binding the key `k` makes two messages of one shape equal, it still does after
another key has been bound to both: what distinguishes the two messages lies where `k`
writes. -/
theorem populateLoop_absorb (pk pj : List String) (x y : Value) (h : shape x = shape y)
    (hk : (populateLoop c pascal fpk vk pk x).1 = (populateLoop c pascal fpk vk pk y).1) :
    (populateLoop c pascal fpk vk pk (populateLoop c pascal fpj vj pj x).1).1 =
      (populateLoop c pascal fpk vk pk (populateLoop c pascal fpj vj pj y).1).1 := by
  induction pk generalizing pj x y with
  | nil =>
    rw [populateLoop_nil, populateLoop_nil] at hk
    rw [populateLoop_nil, populateLoop_nil]
    rcases afterLoop_uniform c fpk vk x with ⟨r, hr⟩ | ⟨s, hs, hr⟩
    · rw [hr x rfl, hr y h.symm] at hk
      simp only at hk
      subst hk
      rfl
    · rw [hr _ (populateLoop_shape_fst c pascal fpj vj pj x),
        hr _ ((populateLoop_shape_fst c pascal fpj vj pj y).trans h.symm)]
  | cons s rest ih =>
    by_cases hx : ∃ fs, x = .struct fs
    · obtain ⟨fs, rfl⟩ := hx
      obtain ⟨gs, rfl, hgs⟩ := shape_eq_struct y _ (h.symm.trans (shape_struct fs))
      rw [populateLoop_field, populateLoop_field] at hk
      rcases FieldByName_shape_cases fs gs hgs.symm (pascal s) with
        ⟨hf, hg⟩ | ⟨f, g, hf, hg, hfg⟩
      · rw [hf, hg] at hk
        simp only [Value.struct.injEq] at hk
        subst hk
        rfl
      · rw [hf, hg] at hk
        simp only [Value.struct.injEq] at hk
        obtain ⟨hab, hov, hoth⟩ := setField_congr fs gs _ _ _ f g hf hg hk
        cases pj with
        | nil =>
          rw [populateLoop_nil, populateLoop_nil]
          rcases afterLoop_uniform c fpj vj (.struct fs) with ⟨r, hr⟩ | ⟨s1, hs1, hr⟩
          · rw [hr _ rfl, hr _ h.symm, populateLoop_field, populateLoop_field, hf, hg]
            simp only [Value.struct.injEq]
            exact hk
          · rw [hr _ rfl, hr _ h.symm]
        | cons u restj =>
          rw [populateLoop_field c pascal fpj vj u restj fs,
            populateLoop_field c pascal fpj vj u restj gs]
          by_cases hus : pascal u = pascal s
          · rw [hus, hf, hg]
            simp only
            rw [populateLoop_field, populateLoop_field,
              FieldByName_setField_same _ _ _ _ hf, FieldByName_setField_same _ _ _ _ hg]
            simp only [setField_overwrite]
            rw [bindField_absorb_of c pascal fpk vk fpj vj rest ih restj f g hfg hab, hov]
          · have hsu : pascal s ≠ pascal u := fun e => hus e.symm
            rw [← hoth _ hus]
            cases hf2 : FieldByName fs (pascal u) with
            | none =>
              simp only
              rw [populateLoop_field, populateLoop_field, hf, hg]
              simp only [Value.struct.injEq]
              exact hk
            | some f2 =>
              simp only
              rw [populateLoop_field, populateLoop_field,
                FieldByName_setField_other _ _ _ _ hsu,
                FieldByName_setField_other _ _ _ _ hsu, hf, hg]
              simp only [Value.struct.injEq]
              rw [setField_comm _ _ _ _ _ hus, setField_comm _ _ _ _ _ hus, hk]
    · have hx1 : ∀ fs, x ≠ .struct fs := fun fs hfs => hx ⟨fs, hfs⟩
      have hy1 : ∀ gs, y ≠ .struct gs := by
        intro gs hgs
        subst hgs
        obtain ⟨fs, hfs, -⟩ := shape_eq_struct x _ (h.trans (shape_struct gs))
        exact hx ⟨fs, hfs⟩
      rw [populateLoop_nonstruct c pascal fpk vk s rest x hx1,
        populateLoop_nonstruct c pascal fpk vk s rest y hy1] at hk
      simp only at hk
      subst hk
      rfl

end AbsorbLoop

section Sequences
variable (c : Converters) (pascal : String → String) (filter : List String → Bool)

/-- Binding all keys to the message a pointer refers to: the pointer keeps referring to
the message, which is bound from inside. -/
theorem PopulateQueryParameters_msg (t : GoType) (l : List (String × List Str))
    (m : Value) :
    PopulateQueryParameters c pascal (.ptr t (some m)) l filter =
      (.ptr t (some (populateAll c pascal filter l m).1),
        (populateAll c pascal filter l m).2) := by
  induction l generalizing m with
  | nil => rfl
  | cons hd tl ih =>
    obtain ⟨key, vals⟩ := hd
    by_cases hk : filter (Split key) = true
    · rw [PopulateQueryParameters_excluded c pascal _ _ _ _ _ hk, ih]
      simp [populateAll, hk]
    · have hk1 : filter (Split key) = false := by simpa using hk
      rcases hres : populateLoop c pascal (Split key) vals (Split key) m with ⟨m1, r⟩
      have hq : populateQueryParameter c pascal (.ptr t (some m)) (Split key) vals =
          (.ptr t (some m1), r) := by
        rw [populateQueryParameter_msg, hres]
      cases r with
      | nil =>
        rw [PopulateQueryParameters_ok c pascal _ _ _ _ _ _ hk1 hq, ih]
        simp [populateAll, hk1, hres]
      | error e =>
        rw [PopulateQueryParameters_fail c pascal filter tl _ _ key vals _ hk1 hq
          (by simp)]
        simp [populateAll, hk1, hres]
      | panic =>
        rw [PopulateQueryParameters_fail c pascal filter tl _ _ key vals _ hk1 hq
          (by simp)]
        simp [populateAll, hk1, hres]

theorem applyAll_shape (l : List (String × List Str)) (x : Value) :
    shape (applyAll c pascal l x) = shape x := by
  induction l generalizing x with
  | nil => rfl
  | cons hd tl ih =>
    obtain ⟨key, vals⟩ := hd
    rw [applyAll, ih, populateLoop_shape_fst]

/-- On the messages of one shape, binding the keys up to the first failure is binding a
fixed list of keys one after the other, and the result is the same for all. -/
theorem populateAll_applyAll (l : List (String × List Str)) (m : Value) :
    ∃ l1, ∀ y, shape y = shape m →
      populateAll c pascal filter l y =
        (applyAll c pascal l1 y, (populateAll c pascal filter l m).2) := by
  induction l generalizing m with
  | nil => exact ⟨[], fun y _ => rfl⟩
  | cons hd tl ih =>
    obtain ⟨key, vals⟩ := hd
    by_cases hk : filter (Split key) = true
    · obtain ⟨l1, h1⟩ := ih m
      refine ⟨l1, fun y hy => ?_⟩
      simp only [populateAll, hk, if_true]
      exact h1 y hy
    · have hk1 : filter (Split key) = false := by simpa using hk
      rcases hres : populateLoop c pascal (Split key) vals (Split key) m with ⟨m1, r⟩
      have hm1 : shape m1 = shape m := by
        have := populateLoop_shape_fst c pascal (Split key) vals (Split key) m
        rwa [hres] at this
      have hry : ∀ y, shape y = shape m →
          populateLoop c pascal (Split key) vals (Split key) y =
            ((populateLoop c pascal (Split key) vals (Split key) y).1, r) := by
        intro y hy
        have := populateLoop_shape_snd c pascal (Split key) vals (Split key) y m hy
        rw [hres] at this
        exact Prod.ext rfl this
      cases r with
      | nil =>
        obtain ⟨l1, h1⟩ := ih m1
        refine ⟨(key, vals) :: l1, fun y hy => ?_⟩
        have hy1 := hry y hy
        have hsh : shape (populateLoop c pascal (Split key) vals (Split key) y).1 =
            shape m1 := by
          rw [populateLoop_shape_fst, hy, hm1]
        rw [populateAll, populateAll]
        simp only [hk1, Bool.false_eq_true, if_false, hres]
        rw [hy1]
        simp only
        rw [h1 _ hsh, applyAll]
      | error e =>
        refine ⟨[(key, vals)], fun y hy => ?_⟩
        have hy1 := hry y hy
        rw [populateAll, populateAll]
        simp only [hk1, Bool.false_eq_true, if_false, hres]
        rw [hy1]
        rfl
      | panic =>
        refine ⟨[(key, vals)], fun y hy => ?_⟩
        have hy1 := hry y hy
        rw [populateAll, populateAll]
        simp only [hk1, Bool.false_eq_true, if_false, hres]
        rw [hy1]
        rfl

/-- A key that is bound again later in a list leaves no trace of an earlier binding:
two messages that binding the key makes equal are made equal by the list. -/
theorem applyAll_absorb_one (l : List (String × List Str)) (key : String)
    (vals : List Str) (a b : Value) (hmem : (key, vals) ∈ l) (h : shape a = shape b)
    (hk : (populateLoop c pascal (Split key) vals (Split key) a).1 =
      (populateLoop c pascal (Split key) vals (Split key) b).1) :
    applyAll c pascal l a = applyAll c pascal l b := by
  induction l generalizing a b with
  | nil => simp at hmem
  | cons hd tl ih =>
    obtain ⟨k1, v1⟩ := hd
    rw [applyAll, applyAll]
    rcases List.mem_cons.mp hmem with heq | htl
    · simp only [Prod.mk.injEq] at heq
      obtain ⟨rfl, rfl⟩ := heq
      rw [hk]
    · refine ih _ _ htl ?_ ?_
      · rw [populateLoop_shape_fst, populateLoop_shape_fst, h]
      · exact populateLoop_absorb c pascal _ _ _ _ _ _ a b h hk

theorem applyAll_absorb (g l : List (String × List Str)) (x : Value)
    (hsub : ∀ kv ∈ g, kv ∈ l) :
    applyAll c pascal l (applyAll c pascal g x) = applyAll c pascal l x := by
  induction g generalizing x with
  | nil => rfl
  | cons hd tl ih =>
    obtain ⟨key, vals⟩ := hd
    rw [applyAll, ih _ (fun kv hkv => hsub kv (List.mem_cons_of_mem _ hkv))]
    exact applyAll_absorb_one c pascal l key vals _ x (hsub _ (List.mem_cons_self _ _))
      (populateLoop_shape_fst c pascal _ _ _ x)
      (by rw [populateLoop_idem])

/-- Binding all keys a second time, from inside the message: same result, same
message. -/
theorem populateAll_idem (l : List (String × List Str)) (m : Value) :
    populateAll c pascal filter l (populateAll c pascal filter l m).1 =
      populateAll c pascal filter l m := by
  obtain ⟨l1, h1⟩ := populateAll_applyAll c pascal filter l m
  have hm := h1 m rfl
  rw [hm]
  simp only
  rw [h1 _ (applyAll_shape c pascal l1 m), applyAll_absorb c pascal l1 l1 m (fun _ h => h)]

/-- A message that no binding changes is left as it is by populate. -/
theorem PopulateQueryParameters_fixed (msg : Value)
    (h : ∀ path vals, (populateQueryParameter c pascal msg path vals).1 = msg)
    (l : List (String × List Str)) :
    (PopulateQueryParameters c pascal msg l filter).1 = msg := by
  induction l with
  | nil => rfl
  | cons hd tl ih =>
    obtain ⟨key, vals⟩ := hd
    by_cases hk : filter (Split key) = true
    · rw [PopulateQueryParameters_excluded c pascal _ _ _ _ _ hk]
      exact ih
    · have hk1 : filter (Split key) = false := by simpa using hk
      rcases hres : populateQueryParameter c pascal msg (Split key) vals with ⟨m1, r⟩
      have hm1 : m1 = msg := by
        have := h (Split key) vals
        rwa [hres] at this
      subst hm1
      cases r with
      | nil =>
        rw [PopulateQueryParameters_ok c pascal _ _ _ _ _ _ hk1 hres]
        exact ih
      | error e =>
        rw [PopulateQueryParameters_fail c pascal filter tl _ _ key vals _ hk1 hres
          (by simp)]
      | panic =>
        rw [PopulateQueryParameters_fail c pascal filter tl _ _ key vals _ hk1 hres
          (by simp)]

end Sequences

section Commute
variable (c : Converters) (pascal : String → String)
variable (fpk : List String) (vk : List Str) (fpj : List String) (vj : List Str)

/-- The code after the loop returns success on scalars only. -/
theorem afterLoop_nil_scalar (fp : List String) (vals : List Str) (x : Value)
    (h : (afterLoop c fp vals x).2 = .nil) : ∃ s, x = .scalar s := by
  cases vals with
  | nil => simp [afterLoop] at h
  | cons v more =>
    cases hreg : convFromType c x.Kind with
    | none => simp [afterLoop, populateField, hreg] at h
    | some conv =>
      rcases scalar_of_convFromType c x conv hreg with hs | ⟨n, s0, rfl⟩
      · exact hs
      · exfalso
        cases hv : conv v with
        | error e => simp [afterLoop, populateField, hreg, hv] at h
        | ok s => simp [afterLoop, populateField, hreg, hv, Set] at h

/-- A walk of at least one segment returns success on messages only. -/
theorem populateLoop_nil_struct (fp : List String) (vals : List Str) (s : String)
    (rest : List String) (x : Value)
    (h : (populateLoop c pascal fp vals (s :: rest) x).2 = .nil) : ∃ fs, x = .struct fs := by
  by_contra hx
  rw [populateLoop_nonstruct c pascal fp vals s rest x (fun fs hfs => hx ⟨fs, hfs⟩)] at h
  cases rest <;> simp at h

theorem bindField_comm_of (restk : List String)
    (ih : ∀ pj x, pj.map pascal ≠ restk.map pascal →
      (populateLoop c pascal fpj vj pj x).2 = .nil →
      (populateLoop c pascal fpk vk restk x).2 = .nil →
      (populateLoop c pascal fpk vk restk (populateLoop c pascal fpj vj pj x).1).1 =
        (populateLoop c pascal fpj vj pj (populateLoop c pascal fpk vk restk x).1).1)
    (restj : List String) (f : Value) (hne : restj.map pascal ≠ restk.map pascal)
    (hj : (bindField c pascal fpj vj restj f).2 = .nil)
    (hk : (bindField c pascal fpk vk restk f).2 = .nil) :
    (bindField c pascal fpk vk restk (bindField c pascal fpj vj restj f).1).1 =
      (bindField c pascal fpj vj restj (bindField c pascal fpk vk restk f).1).1 := by
  have hjf := bindField_shape_fst c pascal fpj vj restj f
  have hkf := bindField_shape_fst c pascal fpk vk restk f
  cases f with
  | scalar x =>
    rw [bindField_pass c pascal fpk vk restk _ (Or.inl ⟨_, hjf⟩),
      bindField_pass c pascal fpj vj restj _ (Or.inl ⟨_, hkf⟩),
      bindField_scalar, bindField_scalar]
    rw [bindField_scalar] at hj hk
    exact ih restj _ hne hj hk
  | named n x =>
    rw [bindField_pass c pascal fpk vk restk _ (Or.inr (Or.inl ⟨_, _, hjf⟩)),
      bindField_pass c pascal fpj vj restj _ (Or.inr (Or.inl ⟨_, _, hkf⟩)),
      bindField_named, bindField_named]
    rw [bindField_named] at hj hk
    exact ih restj _ hne hj hk
  | struct fs =>
    rw [bindField_pass c pascal fpk vk restk _
        (Or.inr (Or.inr ⟨_, hjf.trans (shape_struct fs)⟩)),
      bindField_pass c pascal fpj vj restj _
        (Or.inr (Or.inr ⟨_, hkf.trans (shape_struct fs)⟩)),
      bindField_struct, bindField_struct]
    rw [bindField_struct] at hj hk
    exact ih restj _ hne hj hk
  | ptr t a =>
    rw [bindField_ptr] at hj hk
    rw [bindField_ptr, bindField_ptr, bindField_ptr, bindField_ptr]
    simp only [Option.getD_some]
    rw [ih restj _ hne hj hk]
  | slice t e =>
    cases restj with
    | cons u restj1 => simp [bindField_slice_mid] at hj
    | nil =>
      cases restk with
      | cons s restk1 => simp [bindField_slice_mid] at hk
      | nil => exact absurd rfl hne
  | other k => simp [bindField_other] at hj
  | invalid => simp [bindField_invalid] at hj

/-- Two keys that translate to different field paths and are both bound with success can
be bound in either order: the message left is the same. -/
theorem populateLoop_comm (pk pj : List String) (x : Value)
    (hne : pj.map pascal ≠ pk.map pascal)
    (hj : (populateLoop c pascal fpj vj pj x).2 = .nil)
    (hk : (populateLoop c pascal fpk vk pk x).2 = .nil) :
    (populateLoop c pascal fpk vk pk (populateLoop c pascal fpj vj pj x).1).1 =
      (populateLoop c pascal fpj vj pj (populateLoop c pascal fpk vk pk x).1).1 := by
  induction pk generalizing pj x with
  | nil =>
    rw [populateLoop_nil] at hk
    obtain ⟨s0, rfl⟩ := afterLoop_nil_scalar c fpk vk x hk
    cases pj with
    | nil => exact absurd rfl hne
    | cons u restj =>
      obtain ⟨fs, hfs⟩ := populateLoop_nil_struct c pascal fpj vj u restj _ hj
      exact Value.noConfusion hfs
  | cons s rest ih =>
    obtain ⟨fs, rfl⟩ := populateLoop_nil_struct c pascal fpk vk s rest x hk
    cases pj with
    | nil =>
      rw [populateLoop_nil] at hj
      obtain ⟨s0, hs0⟩ := afterLoop_nil_scalar c fpj vj _ hj
      exact Value.noConfusion hs0
    | cons u restj =>
      rw [populateLoop_field] at hj hk
      rw [populateLoop_field c pascal fpj vj u restj fs,
        populateLoop_field c pascal fpk vk s rest fs]
      by_cases hus : pascal u = pascal s
      · rw [hus] at hj ⊢
        cases hf : FieldByName fs (pascal s) with
        | none =>
          simp only
          rw [populateLoop_field, populateLoop_field, hus, hf]
        | some f =>
          rw [hf] at hj hk
          simp only at hj hk ⊢
          rw [populateLoop_field, populateLoop_field, hus,
            FieldByName_setField_same _ _ _ _ hf, FieldByName_setField_same _ _ _ _ hf]
          simp only [setField_overwrite]
          have hne1 : restj.map pascal ≠ rest.map pascal := by
            intro e
            apply hne
            simp [hus, e]
          rw [bindField_comm_of c pascal fpk vk fpj vj rest ih restj f hne1 hj hk]
      · have hsu : pascal s ≠ pascal u := fun e => hus e.symm
        cases hf : FieldByName fs (pascal s) with
        | none =>
          cases hf2 : FieldByName fs (pascal u) with
          | none =>
            simp only
            rw [populateLoop_field, populateLoop_field, hf, hf2]
          | some f2 =>
            simp only
            rw [populateLoop_field, populateLoop_field,
              FieldByName_setField_other _ _ _ _ hsu, hf, hf2]
        | some f =>
          cases hf2 : FieldByName fs (pascal u) with
          | none =>
            simp only
            rw [populateLoop_field, populateLoop_field,
              FieldByName_setField_other _ _ _ _ hus, hf, hf2]
          | some f2 =>
            simp only
            rw [populateLoop_field, populateLoop_field,
              FieldByName_setField_other _ _ _ _ hus,
              FieldByName_setField_other _ _ _ _ hsu, hf, hf2]
            simp only
            rw [setField_comm _ _ _ _ _ hus]

end Commute

section Orders
variable (c : Converters) (pascal : String → String) (filter : List String → Bool)

theorem populateAll_cons_nil (key : String) (vals : List Str)
    (rest : List (String × List Str)) (m m1 : Value) :
    populateAll c pascal filter ((key, vals) :: rest) m = (m1, .nil) ↔
      (filter (Split key) = true ∧ populateAll c pascal filter rest m = (m1, .nil)) ∨
      (filter (Split key) = false ∧
        (populateLoop c pascal (Split key) vals (Split key) m).2 = .nil ∧
        populateAll c pascal filter rest
          (populateLoop c pascal (Split key) vals (Split key) m).1 = (m1, .nil)) := by
  rw [populateAll]
  by_cases hk : filter (Split key) = true
  · simp [hk]
  · have hk1 : filter (Split key) = false := by simpa using hk
    rcases hres : populateLoop c pascal (Split key) vals (Split key) m with ⟨m2, r⟩
    cases r <;> simp [hk1]

/-- Two orders of the same keys, no two of which, unless excluded, translate to the same
field path: when the first order binds them all with success, so does the second, and
the message left is the same. -/
theorem populateAll_perm (l1 l2 : List (String × List Str)) (hp : l1.Perm l2) :
    l1.Pairwise (fun a b => filter (Split a.1) = true ∨ filter (Split b.1) = true ∨
      translated pascal a.1 ≠ translated pascal b.1) →
    ∀ m m1, populateAll c pascal filter l1 m = (m1, .nil) →
      populateAll c pascal filter l2 m = (m1, .nil) := by
  induction hp with
  | nil => exact fun _ _ _ h => h
  | cons x _ ih =>
    obtain ⟨key, vals⟩ := x
    intro hd m m1 h
    rw [List.pairwise_cons] at hd
    rw [populateAll_cons_nil] at h ⊢
    rcases h with ⟨hk, h⟩ | ⟨hk, hr, h⟩
    · exact Or.inl ⟨hk, ih hd.2 m m1 h⟩
    · exact Or.inr ⟨hk, hr, ih hd.2 _ m1 h⟩
  | swap x y l =>
    obtain ⟨kx, vx⟩ := x
    obtain ⟨ky, vy⟩ := y
    intro hd m m1 h
    rw [List.pairwise_cons] at hd
    have hyx := hd.1 (kx, vx) (List.mem_cons_self _ _)
    rw [populateAll_cons_nil] at h
    rw [populateAll_cons_nil]
    rcases h with ⟨hky, h⟩ | ⟨hky, hry, h⟩
    · rw [populateAll_cons_nil] at h
      rcases h with ⟨hkx, h⟩ | ⟨hkx, hrx, h⟩
      · exact Or.inl ⟨hkx, by rw [populateAll_cons_nil]; exact Or.inl ⟨hky, h⟩⟩
      · exact Or.inr ⟨hkx, hrx, by rw [populateAll_cons_nil]; exact Or.inl ⟨hky, h⟩⟩
    · rw [populateAll_cons_nil] at h
      rcases h with ⟨hkx, h⟩ | ⟨hkx, hrx, h⟩
      · exact Or.inl ⟨hkx, by rw [populateAll_cons_nil]; exact Or.inr ⟨hky, hry, h⟩⟩
      · have hne : translated pascal ky ≠ translated pascal kx := by
          rcases hyx with h1 | h1 | h1
          · simp [hky] at h1
          · simp [hkx] at h1
          · exact h1
        have hsy := populateLoop_shape_fst c pascal (Split ky) vy (Split ky) m
        have hsx := populateLoop_shape_fst c pascal (Split kx) vx (Split kx) m
        have hrx0 : (populateLoop c pascal (Split kx) vx (Split kx) m).2 = .nil := by
          rw [← populateLoop_shape_snd c pascal (Split kx) vx (Split kx) _ m hsy]
          exact hrx
        have hry1 : (populateLoop c pascal (Split ky) vy (Split ky)
            (populateLoop c pascal (Split kx) vx (Split kx) m).1).2 = .nil := by
          rw [populateLoop_shape_snd c pascal (Split ky) vy (Split ky) _ m hsx]
          exact hry
        refine Or.inr ⟨hkx, hrx0, ?_⟩
        rw [populateAll_cons_nil]
        refine Or.inr ⟨hky, hry1, ?_⟩
        rw [← populateLoop_comm c pascal (Split kx) vx (Split ky) vy (Split kx) (Split ky) m
          hne hry hrx0]
        exact h
  | trans hp1 _ ih1 ih2 =>
    intro hd m m1 h
    refine ih2 ?_ m m1 (ih1 hd m m1 h)
    refine (List.Perm.pairwise_iff ?_ hp1).mp hd
    intro a b hab
    rcases hab with h1 | h1 | h1
    · exact Or.inr (Or.inl h1)
    · exact Or.inl h1
    · exact Or.inr (Or.inr (Ne.symm h1))

end Orders

theorem pairwise_of_filter (p : String × List Str → Bool)
    (R : String × List Str → String × List Str → Prop) (l : List (String × List Str))
    (h : (l.filter p).Pairwise R) :
    l.Pairwise fun a b => p a = true → p b = true → R a b := by
  induction l with
  | nil => exact List.Pairwise.nil
  | cons a tl ih =>
    by_cases ha : p a = true
    · rw [List.filter_cons_of_pos ha, List.pairwise_cons] at h
      rw [List.pairwise_cons]
      exact ⟨fun b hb _ hpb => h.1 b (List.mem_filter.mpr ⟨hb, hpb⟩), ih h.2⟩
    · rw [List.filter_cons_of_neg ha] at h
      rw [List.pairwise_cons]
      exact ⟨fun b _ hpa => absurd hpa ha, ih h⟩

section FixedMessage
variable (c : Converters) (pascal : String → String) (filter : List String → Bool)

/-- On a message that no binding changes, populate returns success exactly when every
key is excluded or bound with success. -/
theorem PopulateQueryParameters_fixed_nil (msg : Value)
    (hfix : ∀ path vals, (populateQueryParameter c pascal msg path vals).1 = msg)
    (l : List (String × List Str)) :
    PopulateQueryParameters c pascal msg l filter = (msg, .nil) ↔
      ∀ kv ∈ l, filter (Split kv.1) = true ∨
        (populateQueryParameter c pascal msg (Split kv.1) kv.2).2 = .nil := by
  induction l with
  | nil => simp [PopulateQueryParameters_nil]
  | cons hd tl ih =>
    obtain ⟨key, vals⟩ := hd
    by_cases hk : filter (Split key) = true
    · rw [PopulateQueryParameters_excluded c pascal _ _ _ _ _ hk, ih]
      simp [hk]
    · have hk1 : filter (Split key) = false := by simpa using hk
      rcases hres : populateQueryParameter c pascal msg (Split key) vals with ⟨m1, r⟩
      have hm1 : m1 = msg := by
        have := hfix (Split key) vals
        rwa [hres] at this
      subst hm1
      cases r with
      | nil =>
        rw [PopulateQueryParameters_ok c pascal _ _ _ _ _ _ hk1 hres, ih]
        simp [hk1, hres]
      | error e =>
        rw [PopulateQueryParameters_fail c pascal filter tl _ _ key vals _ hk1 hres
          (by simp)]
        simp [hk1, hres]
      | panic =>
        rw [PopulateQueryParameters_fail c pascal filter tl _ _ key vals _ hk1 hres
          (by simp)]
        simp [hk1, hres]

theorem PopulateQueryParameters_fixed_perm (msg msg1 : Value)
    (hfix : ∀ path vals, (populateQueryParameter c pascal msg path vals).1 = msg)
    (l1 l2 : List (String × List Str)) (hp : l1.Perm l2)
    (h : PopulateQueryParameters c pascal msg l1 filter = (msg1, .nil)) :
    PopulateQueryParameters c pascal msg l2 filter = (msg1, .nil) := by
  have hm : msg1 = msg := by
    have := PopulateQueryParameters_fixed c pascal filter msg hfix l1
    rw [h] at this
    exact this
  subst hm
  rw [PopulateQueryParameters_fixed_nil c pascal filter _ hfix] at h ⊢
  exact fun kv hkv => h kv (hp.mem_iff.mpr hkv)

end FixedMessage

section Failure
variable (c : Converters) (pascal : String → String) (filter : List String → Bool)

/-- On a message that has the shape of the schema `t`, populate returns `nil` exactly
when every key the filter lets through, bound on its own to the empty message of `t`,
returns `nil`: whether it does depends neither on the order of the keys nor on the
contents of the message. -/
theorem populateAll_nil_iff (t : GoType) (l : List (String × List Str)) (m : Value)
    (hm : shape m = shapeOfType t) :
    (populateAll c pascal filter l m).2 = .nil ↔
      ∀ kv ∈ l, filter (Split kv.1) = true ∨
        (populateLoop c pascal (Split kv.1) kv.2 (Split kv.1) (zero t)).2 = .nil := by
  induction l generalizing m with
  | nil => simp [populateAll]
  | cons hd tl ih =>
    obtain ⟨key, vals⟩ := hd
    by_cases hk : filter (Split key) = true
    · rw [populateAll]
      simp only [hk, if_true]
      rw [ih m hm]
      simp [hk]
    · have hk1 : filter (Split key) = false := by simpa using hk
      have hz : shape m = shape (zero t) := by rw [shape_zero, hm]
      have hr := populateLoop_shape_snd c pascal (Split key) vals (Split key) m (zero t) hz
      have hs := populateLoop_shape_fst c pascal (Split key) vals (Split key) m
      rcases hres : populateLoop c pascal (Split key) vals (Split key) m with ⟨m1, r⟩
      rw [hres] at hr hs
      simp only at hr hs
      rw [populateAll]
      simp only [hk1, Bool.false_eq_true, if_false, hres]
      cases r with
      | nil =>
        simp only
        rw [ih m1 (hs.trans hm)]
        simp [hk1, ← hr]
      | error e => simp [hk1, ← hr]
      | panic => simp [hk1, ← hr]

end Failure

section Target
variable (c : Converters) (pascal : String → String) (fp : List String) (vals : List Str)

theorem target_ptr (t : GoType) (tgt : Option Value) (tv : Value)
    (h : target (.ptr t tgt) = some tv) : tgt.getD (zero t) = tv := by
  simp only [target] at h
  split at h
  · rename_i s hs
    rw [hs]
    simpa using h
  · rename_i n s hs
    rw [hs]
    simpa using h
  · simp at h

/-- The last iteration of the loop on a singular scalar field: the code after the loop
runs on the value the field holds, and an optional field is set to hold what that code
leaves. -/
theorem bindField_target (f tv : Value) (h : target f = some tv) :
    bindField c pascal fp vals [] f =
      (rewrap f (afterLoop c fp vals tv).1, (afterLoop c fp vals tv).2) := by
  cases f with
  | scalar s =>
    simp only [target, Option.some.injEq] at h
    subst h
    rw [bindField_scalar, populateLoop_nil]
    rfl
  | named n s =>
    simp only [target, Option.some.injEq] at h
    subst h
    rw [bindField_named, populateLoop_nil]
    rfl
  | ptr t tgt =>
    rw [bindField_ptr, populateLoop_nil, target_ptr t tgt tv h]
    rfl
  | invalid => simp [target] at h
  | other k => simp [target] at h
  | slice t e => simp [target] at h
  | struct fs => simp [target] at h

/-- A singular scalar field set to hold the value it held is the field it was, unless
it is an unset optional field, which becomes set to the zero value. -/
theorem rewrap_target (f tv : Value) (h : target f = some tv) :
    ((∀ t1, f ≠ .ptr t1 none) → rewrap f tv = f) ∧
      (∀ t1, f = .ptr t1 none → rewrap f tv = .ptr t1 (some (zero t1))) := by
  cases f with
  | scalar s =>
    simp only [target, Option.some.injEq] at h
    subst h
    exact ⟨fun _ => rfl, fun t1 h1 => Value.noConfusion h1⟩
  | named n s =>
    simp only [target, Option.some.injEq] at h
    subst h
    exact ⟨fun _ => rfl, fun t1 h1 => Value.noConfusion h1⟩
  | ptr t tgt =>
    have ht := target_ptr t tgt tv h
    cases tgt with
    | none =>
      simp only [Option.getD_none] at ht
      subst ht
      refine ⟨fun h1 => absurd rfl (h1 t), fun t1 h1 => ?_⟩
      simp only [Value.ptr.injEq, and_true] at h1
      subst h1
      rfl
    | some inner =>
      simp only [Option.getD_some] at ht
      subst ht
      exact ⟨fun _ => rfl, fun t1 h1 => by simp at h1⟩
  | invalid => simp [target] at h
  | other k => simp [target] at h
  | slice t e => simp [target] at h
  | struct fs => simp [target] at h

end Target

/-! ## Binding fields of basic types -/

/-- Binding a singular scalar field of a basic type `K`, optional or not: when the
segments of a key before the last resolve to nested-message fields (set or unset), the
last one to such a field, and `v` parses as `K`, populating the single non-excluded key
with the one value `v` returns success, and afterwards the path addresses, through nested
messages that are all set, the field holding `convert(K, v)`. -/
theorem binds_basic_scalar (c : Converters) (pascal : String → String)
    (filter : List String → Bool) (t : GoType) (m : Value) (key : String) (v : Str)
    (f : Value) (old x : Scalar)
    (hfilter : filter (Split key) = false)
    (hpath : peek pascal m (Split key) = some f)
    (htarget : target f = some (.scalar old))
    (hconv : convert c (Value.scalar old).Kind v = .ok x) :
    ∃ m1, PopulateQueryParameters c pascal (.ptr t (some m)) [(key, [v])] filter =
        (.ptr t (some m1), .nil) ∧
      fieldAt pascal m1 (Split key) = some (rewrap f (.scalar x)) := by
  obtain ⟨m1, h1, h2⟩ :=
    populateLoop_last c pascal (Split key) [v] (Split key) m f hpath
  rw [bindField_target c pascal _ _ f _ htarget] at h1 h2
  have hb : afterLoop c (Split key) [v] (.scalar old) = (.scalar x, .nil) := by
    simp [afterLoop, populateField_scalar_ok c old x v hconv]
  rw [hb] at h1 h2
  refine ⟨m1, ?_, h2⟩
  rw [PopulateQueryParameters_single c pascal _ _ _ _ hfilter, populateQueryParameter_msg, h1]

/-- The spec's example of a scalar binding: key `nested.value` with the value `42` on
the empty example message. -/
theorem binds_basic_scalar_example :
    ∃ m1, PopulateQueryParameters specConverters PascalFromSnake exampleEmpty
        [("nested.value", ["42"])] noFilter = (.ptr exampleType (some m1), .nil) ∧
      fieldAt PascalFromSnake m1 (Split "nested.value") = some (.scalar (.int32 42)) :=
  binds_basic_scalar specConverters PascalFromSnake noFilter exampleType
    (zero exampleType) "nested.value" "42" (.scalar (.int32 0)) (.int32 0) (.int32 42)
    rfl rfl rfl rfl

/-- An optional scalar field that is unset is bound as well: key `count` with the value
`42` leaves the field set and holding 42. -/
theorem binds_basic_optional_example :
    ∃ m1, PopulateQueryParameters specConverters PascalFromSnake
        (.ptr exampleOptionalType (some (zero exampleOptionalType)))
        [("count", ["42"])] noFilter = (.ptr exampleOptionalType (some m1), .nil) ∧
      fieldAt PascalFromSnake m1 (Split "count") =
        some (.ptr (.scalar .Int32) (some (.scalar (.int32 42)))) :=
  binds_basic_scalar specConverters PascalFromSnake noFilter exampleOptionalType
    (zero exampleOptionalType) "count" "42" (.ptr (.scalar .Int32) none) (.int32 0)
    (.int32 42) rfl rfl rfl rfl

/-- Binding a repeated field whose elements are of a basic type `K`: when every value
(there may be none) parses as `K`, populate returns success and afterwards the field
holds exactly the converted values, as many as were given and in input order, whatever
it held before. -/
theorem binds_basic_repeated (c : Converters) (pascal : String → String)
    (filter : List String → Bool) (t : GoType) (m : Value) (key : String)
    (vals : List Str) (K : ScalarKind) (prior : Option (List Value)) (xs : List Scalar)
    (hfilter : filter (Split key) = false)
    (hpath : peek pascal m (Split key) = some (.slice (.scalar K) prior))
    (hconv : vals.map (convert c K.Kind) = xs.map Except.ok) :
    ∃ m1, PopulateQueryParameters c pascal (.ptr t (some m)) [(key, vals)] filter =
        (.ptr t (some m1), .nil) ∧
      fieldAt pascal m1 (Split key) =
        some (.slice (.scalar K) (some (xs.map Value.scalar))) ∧
      (xs.map Value.scalar).length = vals.length := by
  obtain ⟨m1, h1, h2⟩ :=
    populateLoop_leaf c pascal (Split key) vals (Split key) m _ hpath rfl
  have hb : bindLeaf c (Split key) vals (.slice (.scalar K) prior) =
      (.slice (.scalar K) (some (xs.map Value.scalar)), .nil) := by
    simp only [bindLeaf]
    exact populateRepeatedField_ok c K prior vals xs hconv
  rw [hb] at h1 h2
  refine ⟨m1, ?_, h2, ?_⟩
  · rw [PopulateQueryParameters_single c pascal _ _ _ _ hfilter, populateQueryParameter_msg,
      h1]
  · have := congrArg List.length hconv
    simpa using this.symm

/-- The spec's example of a repeated binding: key `tags` with the values `x`, `y`, `z`,
on a message whose `tags` already held one element. -/
theorem binds_basic_repeated_example :
    ∃ m1, PopulateQueryParameters specConverters PascalFromSnake
        (.ptr (.struct [("Tags", .slice (.scalar .String))])
          (some (.struct [("Tags", .slice (.scalar .String)
            (some [.scalar (.string "old")]))])))
        [("tags", ["x", "y", "z"])] noFilter =
        (.ptr (.struct [("Tags", .slice (.scalar .String))]) (some m1), .nil) ∧
      fieldAt PascalFromSnake m1 (Split "tags") =
        some (.slice (.scalar .String)
          (some ([Scalar.string "x", .string "y", .string "z"].map Value.scalar))) ∧
      ([Scalar.string "x", .string "y", .string "z"].map Value.scalar).length =
        ["x", "y", "z"].length :=
  binds_basic_repeated specConverters PascalFromSnake noFilter
    (.struct [("Tags", .slice (.scalar .String))])
    (.struct [("Tags", .slice (.scalar .String) (some [.scalar (.string "old")]))])
    "tags" ["x", "y", "z"] .String (some [.scalar (.string "old")])
    [.string "x", .string "y", .string "z"] rfl rfl rfl

/-- Binding a repeated field whose elements are of a basic type `K`, when the value at
index `k` is the first that fails to parse as `K`: populate returns that value's
conversion error; the field is a fresh sequence as long as the value list, whose elements
below `k` are the converted values in order and whose elements from `k` on are the zero
value of `K`. -/
theorem binds_basic_partial (c : Converters) (pascal : String → String)
    (filter : List String → Bool) (t : GoType) (m : Value) (key : String)
    (pre : List Str) (bad : Str) (post : List Str) (K : ScalarKind)
    (prior : Option (List Value)) (xs : List Scalar) (e : Error)
    (hfilter : filter (Split key) = false)
    (hpath : peek pascal m (Split key) = some (.slice (.scalar K) prior))
    (hconv : pre.map (convert c K.Kind) = xs.map Except.ok)
    (hbad : convert c K.Kind bad = .error e) :
    ∃ m1, PopulateQueryParameters c pascal (.ptr t (some m)) [(key, pre ++ bad :: post)]
        filter = (.ptr t (some m1), .error e) ∧
      fieldAt pascal m1 (Split key) =
        some (.slice (.scalar K) (some (xs.map Value.scalar ++
          List.replicate (1 + post.length) (.scalar (Scalar.zero K))))) ∧
      (xs.map Value.scalar ++
        List.replicate (1 + post.length) (Value.scalar (Scalar.zero K))).length =
          (pre ++ bad :: post).length := by
  obtain ⟨m1, h1, h2⟩ :=
    populateLoop_leaf c pascal (Split key) (pre ++ bad :: post) (Split key) m _ hpath rfl
  have hb : bindLeaf c (Split key) (pre ++ bad :: post) (.slice (.scalar K) prior) =
      (.slice (.scalar K) (some (xs.map Value.scalar ++
        List.replicate (1 + post.length) (.scalar (Scalar.zero K)))), .error e) := by
    simp only [bindLeaf]
    exact populateRepeatedField_error c K prior pre bad post xs e hconv hbad
  rw [hb] at h1 h2
  refine ⟨m1, ?_, h2, ?_⟩
  · rw [PopulateQueryParameters_single c pascal _ _ _ _ hfilter, populateQueryParameter_msg,
      h1]
  · have := congrArg List.length hconv
    simp only [List.length_map] at this
    simp [← this, Nat.add_comm]

/-- The spec's example of a partial write: key `id` with the values `1`, `2`, `x`. -/
theorem binds_basic_partial_example :
    ∃ m1, PopulateQueryParameters specConverters PascalFromSnake
        (.ptr exampleType (some (zero exampleType)))
        [("id", ["1", "2"] ++ "x" :: [])] noFilter =
        (.ptr exampleType (some m1), .error (.conversion .Int32 "x")) ∧
      fieldAt PascalFromSnake m1 (Split "id") =
        some (.slice (.scalar .Int32) (some ([Scalar.int32 1, .int32 2].map Value.scalar ++
          List.replicate (1 + ([] : List Str).length) (.scalar (Scalar.zero .Int32))))) ∧
      ([Scalar.int32 1, .int32 2].map Value.scalar ++
        List.replicate (1 + ([] : List Str).length)
          (Value.scalar (Scalar.zero .Int32))).length =
          (["1", "2"] ++ "x" :: []).length :=
  binds_basic_partial specConverters PascalFromSnake noFilter exampleType
    (zero exampleType) "id" ["1", "2"] "x" [] .Int32 none [.int32 1, .int32 2]
    (.conversion .Int32 "x") rfl rfl rfl rfl

/-! ## Theorems -/

/-- C1, evaluated: on a message whose field `color` has the enum type `Color`, a named
type of kind int32, the key `color` comes with the value `1`, which parses as int32.
Populate does not return success: the converter registered for the kind returns an
`int32`, and storing it in the field of type `Color` makes the reflection library panic
in `Set`.  The message is left as it was. -/
theorem populate_named_scalar_panics :
    peek PascalFromSnake (zero exampleEnumType) (Split "color") =
        some (.named "Color" (.int32 0)) ∧
      convert specConverters (Value.named "Color" (.int32 0)).Kind "1" = .ok (.int32 1) ∧
      PopulateQueryParameters specConverters PascalFromSnake
          (.ptr exampleEnumType (some (zero exampleEnumType))) [("color", ["1"])]
          noFilter =
        (.ptr exampleEnumType (some (zero exampleEnumType)), .panic) :=
  ⟨rfl, rfl, rfl⟩

/-- C2: a nested message is allocated at most once and then reused.  When the nested
field `a` is already set, binding `a.c` writes `c` inside the message `a` holds and
leaves every other field of that message, `b` included, as it was.  And binding `a.b`
and `a.c`, in either order, to a message in which `a` is set or unset leaves the same
message, in which the one message under `a` holds both converted values. -/
theorem populate_reuses_nested (cv : Converters) (pascal : String → String)
    (filter : List String → Bool) (t : GoType) (fs : List (String × Value))
    (a b c kb kc : String) (vb vc : Str) (ob oc xb xc : Scalar)
    (hkb : Split kb = [a, b]) (hkc : Split kc = [a, c])
    (hfb : filter (Split kb) = false) (hfc : filter (Split kc) = false)
    (hne : pascal b ≠ pascal c)
    (hb : peek pascal (.struct fs) [a, b] = some (.scalar ob))
    (hc : peek pascal (.struct fs) [a, c] = some (.scalar oc))
    (hvb : convert cv (Value.scalar ob).Kind vb = .ok xb)
    (hvc : convert cv (Value.scalar oc).Kind vc = .ok xc) :
    (∀ ta ifs, FieldByName fs (pascal a) = some (.ptr ta (some (.struct ifs))) →
      ∃ fs1 ifs1,
        PopulateQueryParameters cv pascal (.ptr t (some (.struct fs))) [(kc, [vc])] filter =
          (.ptr t (some (.struct fs1)), .nil) ∧
        FieldByName fs1 (pascal a) = some (.ptr ta (some (.struct ifs1))) ∧
        FieldByName ifs1 (pascal c) = some (.scalar xc) ∧
        (∀ n, n ≠ pascal c → FieldByName ifs1 n = FieldByName ifs n) ∧
        FieldByName ifs (pascal b) = some (.scalar ob) ∧
        FieldByName ifs1 (pascal b) = some (.scalar ob) ∧
        ifs1.map Prod.fst = ifs.map Prod.fst) ∧
    (∃ m1,
      PopulateQueryParameters cv pascal (.ptr t (some (.struct fs)))
          [(kb, [vb]), (kc, [vc])] filter = (.ptr t (some m1), .nil) ∧
      PopulateQueryParameters cv pascal (.ptr t (some (.struct fs)))
          [(kc, [vc]), (kb, [vb])] filter = (.ptr t (some m1), .nil) ∧
      fieldAt pascal m1 [a, b] = some (.scalar xb) ∧
      fieldAt pascal m1 [a, c] = some (.scalar xc)) := by
  obtain ⟨g, inner, hg, hi, hpb⟩ := peek_cons_cases pascal a b [] fs _ hb
  obtain ⟨g1, inner1, hg1, hi1, hpc⟩ := peek_cons_cases pascal a c [] fs _ hc
  obtain rfl : g1 = g := Option.some.inj (hg1.symm.trans hg)
  obtain rfl : inner1 = inner := Option.some.inj (hi1.symm.trans hi)
  obtain ⟨ifs, rfl⟩ := peek_some_struct pascal inner1 _ _ hpb
  rw [peek_one] at hpb hpc
  constructor
  · intro ta ifs0 hset
    obtain rfl : g1 = .ptr ta (some (.struct ifs0)) := Option.some.inj (hg.symm.trans hset)
    obtain rfl : ifs0 = ifs := by
      simp only [enter, Option.getD_some, Option.some.injEq, Value.struct.injEq] at hi
      exact hi
    refine ⟨setField fs (pascal a)
      (.ptr ta (some (.struct (setField ifs0 (pascal c) (.scalar xc))))),
      setField ifs0 (pascal c) (.scalar xc), ?_, ?_, ?_, ?_, hpb, ?_, ?_⟩
    · rw [PopulateQueryParameters_single cv pascal _ _ _ _ hfc, populateQueryParameter_msg,
        hkc, populateLoop_nested_scalar cv pascal _ a c fs ifs0 _ oc xc vc hg hi hpc hvc]
      rfl
    · exact FieldByName_setField_same _ _ _ _ hg
    · exact FieldByName_setField_same _ _ _ _ hpc
    · intro n hn
      exact FieldByName_setField_other _ _ _ _ hn
    · rw [FieldByName_setField_other _ _ _ _ hne, hpb]
    · exact setField_names _ _ _
  · refine ⟨.struct (setField fs (pascal a) (rewrap g1 (.struct
      (setField (setField ifs (pascal b) (.scalar xb)) (pascal c) (.scalar xc))))),
      ?_, ?_, ?_, ?_⟩
    · exact PopulateQueryParameters_two_keys cv pascal filter t a b c kb kc fs ifs g1
        ob oc xb xc vb vc hkb hkc hfb hfc hne hg hi hpb hpc hvb hvc
    · rw [PopulateQueryParameters_two_keys cv pascal filter t a c b kc kb fs ifs g1
        oc ob xc xb vc vb hkc hkb hfc hfb (Ne.symm hne) hg hi hpc hpb hvc hvb,
        setField_comm _ _ _ _ _ (Ne.symm hne)]
    · rw [fieldAt_cons, FieldByName_setField_same _ _ _ _ hg]
      simp only [Option.some_bind, enterSet_rewrap g1 _ _ hi]
      rw [fieldAt_one, FieldByName_setField_other _ _ _ _ hne]
      exact FieldByName_setField_same _ _ _ _ hpb
    · rw [fieldAt_cons, FieldByName_setField_same _ _ _ _ hg]
      simp only [Option.some_bind, enterSet_rewrap g1 _ _ hi]
      rw [fieldAt_one]
      refine FieldByName_setField_same _ _ (.scalar oc) _ ?_
      rw [FieldByName_setField_other _ _ _ _ (Ne.symm hne), hpc]

/-- Witness of C2: the keys `nested.value` and `nested.label` on an example message
whose nested message is set. -/
theorem populate_reuses_nested_witness :
    (∀ ta ifs, FieldByName exampleSetFields (PascalFromSnake "nested") =
        some (.ptr ta (some (.struct ifs))) →
      ∃ fs1 ifs1,
        PopulateQueryParameters specConverters PascalFromSnake
            (.ptr exampleType (some (.struct exampleSetFields)))
            [("nested.label", ["hi"])] noFilter = (.ptr exampleType (some (.struct fs1)), .nil) ∧
        FieldByName fs1 (PascalFromSnake "nested") = some (.ptr ta (some (.struct ifs1))) ∧
        FieldByName ifs1 (PascalFromSnake "label") = some (.scalar (.string "hi")) ∧
        (∀ n, n ≠ PascalFromSnake "label" → FieldByName ifs1 n = FieldByName ifs n) ∧
        FieldByName ifs (PascalFromSnake "value") = some (.scalar (.int32 7)) ∧
        FieldByName ifs1 (PascalFromSnake "value") = some (.scalar (.int32 7)) ∧
        ifs1.map Prod.fst = ifs.map Prod.fst) ∧
    (∃ m1,
      PopulateQueryParameters specConverters PascalFromSnake
          (.ptr exampleType (some (.struct exampleSetFields)))
          [("nested.value", ["42"]), ("nested.label", ["hi"])] noFilter =
          (.ptr exampleType (some m1), .nil) ∧
      PopulateQueryParameters specConverters PascalFromSnake
          (.ptr exampleType (some (.struct exampleSetFields)))
          [("nested.label", ["hi"]), ("nested.value", ["42"])] noFilter =
          (.ptr exampleType (some m1), .nil) ∧
      fieldAt PascalFromSnake m1 ["nested", "value"] = some (.scalar (.int32 42)) ∧
      fieldAt PascalFromSnake m1 ["nested", "label"] = some (.scalar (.string "hi"))) :=
  populate_reuses_nested specConverters PascalFromSnake noFilter exampleType
    exampleSetFields "nested" "value" "label" "nested.value" "nested.label" "42" "hi"
    (.int32 7) (.string "old") (.int32 42) (.string "hi") rfl rfl rfl rfl (by decide)
    rfl rfl rfl rfl

/-- C3: a key whose dot-path the filter excludes is never applied.  Whatever its values,
populate returns the same result and leaves the same message as without that key; and
when every other key is excluded too, it returns success and leaves the message as it
was. -/
theorem populate_skips_excluded (c : Converters) (pascal : String → String)
    (filter : List String → Bool) (msg : Value) (pre post : List (String × List Str))
    (key : String) (vals : List Str) (h : filter (Split key) = true) :
    PopulateQueryParameters c pascal msg (pre ++ (key, vals) :: post) filter =
        PopulateQueryParameters c pascal msg (pre ++ post) filter ∧
      ((∀ kv ∈ pre ++ post, filter (Split kv.1) = true) →
        PopulateQueryParameters c pascal msg (pre ++ (key, vals) :: post) filter =
          (msg, .nil)) := by
  refine ⟨PopulateQueryParameters_drop_excluded c pascal filter pre post key vals msg h, ?_⟩
  intro hall
  rw [PopulateQueryParameters_drop_excluded c pascal filter pre post key vals msg h]
  exact PopulateQueryParameters_all_excluded c pascal filter _ msg hall

/-- Witness of C3: with `nested` reserved, the keys `nested.value` (a value that does
not parse), `nested.unknown` (no such field) and `nested` (no value, unsupported
target) are all skipped. -/
theorem populate_skips_excluded_witness :
    PopulateQueryParameters specConverters PascalFromSnake exampleEmpty
        ([("nested.unknown", ["1"])] ++ ("nested.value", ["abc"]) :: [("nested", [])])
        (hasCommonPrefix [["nested"]]) =
      PopulateQueryParameters specConverters PascalFromSnake exampleEmpty
        ([("nested.unknown", ["1"])] ++ [("nested", [])]) (hasCommonPrefix [["nested"]]) ∧
    ((∀ kv ∈ [("nested.unknown", ["1"])] ++ [("nested", ([] : List Str))],
        hasCommonPrefix [["nested"]] (Split kv.1) = true) →
      PopulateQueryParameters specConverters PascalFromSnake exampleEmpty
        ([("nested.unknown", ["1"])] ++ ("nested.value", ["abc"]) :: [("nested", [])])
        (hasCommonPrefix [["nested"]]) = (exampleEmpty, .nil)) :=
  populate_skips_excluded specConverters PascalFromSnake (hasCommonPrefix [["nested"]])
    exampleEmpty [("nested.unknown", ["1"])] [("nested", [])] "nested.value" ["abc"]
    (by decide)

/-- C4, counterexample: on the empty example message the key `nested.unknown` returns
success, yet the message is not as it was before the call: the nested message `nested`
has been allocated. -/
theorem populate_unknown_field_allocates :
    PopulateQueryParameters specConverters PascalFromSnake exampleEmpty
        [("nested.unknown", ["1"])] noFilter =
      (.ptr exampleType (some (.struct [("Name", .scalar (.string "")),
        ("Nested", .ptr exampleNested (some (zero exampleNested))),
        ("Tags", .slice (.scalar .String) none), ("Id", .slice (.scalar .Int32) none),
        ("Data", .slice (.other .Uint8) none)])), .nil) ∧
    PopulateQueryParameters specConverters PascalFromSnake exampleEmpty
        [("nested.unknown", ["1"])] noFilter ≠ (exampleEmpty, .nil) := by
  have h0 : PopulateQueryParameters specConverters PascalFromSnake exampleEmpty
      [("nested.unknown", ["1"])] noFilter =
      (.ptr exampleType (some (.struct [("Name", .scalar (.string "")),
        ("Nested", .ptr exampleNested (some (zero exampleNested))),
        ("Tags", .slice (.scalar .String) none), ("Id", .slice (.scalar .Int32) none),
        ("Data", .slice (.other .Uint8) none)])), .nil) := rfl
  refine ⟨h0, ?_⟩
  rw [h0]
  intro h
  simp [exampleEmpty, exampleType, zero, zeroFields] at h


/-- C4, amended: when the segments before an absent one resolve to nested-message fields,
populate skips the key and returns success.  The message afterwards is the one before the
call with the unset nested messages before the absent segment allocated as empty
messages; it is exactly the one before the call when all of them were set, and in any
case every scalar and every repeated field reads as before. -/
theorem populate_unknown_field (c : Converters) (pascal : String → String)
    (filter : List String → Bool) (t : GoType) (m : Value) (key : String)
    (vals : List Str) (pre : List String) (s : String) (post : List String)
    (fs : List (String × Value))
    (hfilter : filter (Split key) = false)
    (hsplit : Split key = pre ++ s :: post)
    (hpre : nestedAt pascal m pre = some (.struct fs))
    (hs : FieldByName fs (pascal s) = none) :
    PopulateQueryParameters c pascal (.ptr t (some m)) [(key, vals)] filter =
        (.ptr t (some (allocated pascal m pre)), .nil) ∧
      (allSet pascal m pre = true →
        PopulateQueryParameters c pascal (.ptr t (some m)) [(key, vals)] filter =
          (.ptr t (some m), .nil)) ∧
      (∀ path f, isLeaf f = true →
        (peek pascal (allocated pascal m pre) path = some f ↔
          peek pascal m path = some f)) := by
  have h1 : PopulateQueryParameters c pascal (.ptr t (some m)) [(key, vals)] filter =
      (.ptr t (some (allocated pascal m pre)), .nil) := by
    rw [PopulateQueryParameters_single c pascal _ _ _ _ hfilter, populateQueryParameter_msg,
      hsplit, populateLoop_unknown c pascal _ vals pre s post m fs hpre hs]
  refine ⟨h1, ?_, fun path f hf => peek_allocated pascal pre path m f hf⟩
  intro hset
  rw [h1, allocated_allSet pascal pre m hset]

/-- Witness of C4, amended: the key `nested.unknown` on the empty example message. -/
theorem populate_unknown_field_witness :
    PopulateQueryParameters specConverters PascalFromSnake
        (.ptr exampleType (some (zero exampleType))) [("nested.unknown", ["1"])] noFilter =
        (.ptr exampleType
          (some (allocated PascalFromSnake (zero exampleType) ["nested"])), .nil) ∧
      (allSet PascalFromSnake (zero exampleType) ["nested"] = true →
        PopulateQueryParameters specConverters PascalFromSnake
          (.ptr exampleType (some (zero exampleType))) [("nested.unknown", ["1"])]
          noFilter = (.ptr exampleType (some (zero exampleType)), .nil)) ∧
      (∀ path f, isLeaf f = true →
        (peek PascalFromSnake (allocated PascalFromSnake (zero exampleType) ["nested"])
            path = some f ↔
          peek PascalFromSnake (zero exampleType) path = some f)) :=
  populate_unknown_field specConverters PascalFromSnake noFilter exampleType
    (zero exampleType) "nested.unknown" ["1"] ["nested"] "unknown" []
    (zeroFields [("Value", .scalar .Int32), ("Label", .scalar .String)]) rfl rfl rfl rfl

/-- C5, evaluated: on a message whose repeated field `colors` has elements of the enum
type `Color`, a named type of kind int32, the key `colors` comes with the values `1` and
`2`, which both parse as int32.  Populate does not return success: the field is replaced
by a fresh sequence of two zero elements, and storing the first converted value, an
`int32`, in an element of type `Color` makes the reflection library panic in `Set`. -/
theorem populate_named_repeated_panics :
    peek PascalFromSnake (zero exampleEnumType) (Split "colors") =
        some (.slice (.named "Color" .Int32) none) ∧
      ["1", "2"].map (convert specConverters (GoType.named "Color" .Int32).Kind) =
        [Scalar.int32 1, .int32 2].map Except.ok ∧
      PopulateQueryParameters specConverters PascalFromSnake
          (.ptr exampleEnumType (some (zero exampleEnumType))) [("colors", ["1", "2"])]
          noFilter =
        (.ptr exampleEnumType (some (.struct [("Color", .named "Color" (.int32 0)),
          ("Colors", .slice (.named "Color" .Int32)
            (some [.named "Color" (.int32 0), .named "Color" (.int32 0)]))])), .panic) :=
  ⟨rfl, rfl, rfl⟩

/-- C6, evaluated: on a message whose repeated field `colors` has elements of the enum
type `Color`, a named type of kind int32, the key `colors` comes with the values `1` and
`x`, of which the second is the first that fails to parse as int32.  Populate does not
return the conversion error of `x`, and the element at index 0 does not hold the
converted value: storing the converted `1` in it makes the reflection library panic in
`Set` before `x` is looked at. -/
theorem populate_named_repeated_error_lost :
    peek PascalFromSnake (zero exampleEnumType) (Split "colors") =
        some (.slice (.named "Color" .Int32) none) ∧
      convert specConverters (GoType.named "Color" .Int32).Kind "1" = .ok (.int32 1) ∧
      convert specConverters (GoType.named "Color" .Int32).Kind "x" =
        .error (.conversion .Int32 "x") ∧
      PopulateQueryParameters specConverters PascalFromSnake
          (.ptr exampleEnumType (some (zero exampleEnumType))) [("colors", ["1", "x"])]
          noFilter =
        (.ptr exampleEnumType (some (.struct [("Color", .named "Color" (.int32 0)),
          ("Colors", .slice (.named "Color" .Int32)
            (some [.named "Color" (.int32 0), .named "Color" (.int32 0)]))])), .panic) :=
  ⟨rfl, rfl, rfl, rfl⟩

/-- C7, counterexample: on a message whose optional int32 field `count` is unset, the
key `count` with the value `abc` fails with the conversion error, yet the field does not
keep the value it had: the binder has allocated it before converting, and it is now set
and holds zero. -/
theorem populate_conversion_error_allocates :
    peek PascalFromSnake (zero exampleOptionalType) (Split "count") =
        some (.ptr (.scalar .Int32) none) ∧
      PopulateQueryParameters specConverters PascalFromSnake
          (.ptr exampleOptionalType (some (zero exampleOptionalType)))
          [("count", ["abc"])] noFilter =
        (.ptr exampleOptionalType
          (some (.struct [("Count", .ptr (.scalar .Int32) (some (.scalar (.int32 0))))])),
          .error (.conversion .Int32 "abc")) ∧
      fieldAt PascalFromSnake
          (.struct [("Count", .ptr (.scalar .Int32) (some (.scalar (.int32 0))))])
          (Split "count") = some (.ptr (.scalar .Int32) (some (.scalar (.int32 0)))) ∧
      Value.ptr (.scalar .Int32) (some (.scalar (.int32 0))) ≠
        Value.ptr (.scalar .Int32) none := by
  refine ⟨rfl, rfl, rfl, ?_⟩
  intro h
  simp at h

/-- C7, amended: when a key resolves to a singular scalar field, optional or not, and
`v` does not parse as the kind of the field, populating the key with the one value `v`
fails with the converter's error.  The field holds the value it had before the call,
unless it is an optional field that was unset: that one is allocated before the
conversion and afterwards is set and holds the zero value. -/
theorem populate_conversion_error (c : Converters) (pascal : String → String)
    (filter : List String → Bool) (t : GoType) (m : Value) (key : String) (v : Str)
    (f tv : Value) (conv : Str → Except Error Scalar) (e : Error)
    (hfilter : filter (Split key) = false)
    (hpath : peek pascal m (Split key) = some f)
    (htarget : target f = some tv)
    (hreg : convFromType c tv.Kind = some conv)
    (hconv : conv v = .error e) :
    ∃ m1, PopulateQueryParameters c pascal (.ptr t (some m)) [(key, [v])] filter =
        (.ptr t (some m1), .error e) ∧
      ((∀ t1, f ≠ .ptr t1 none) → fieldAt pascal m1 (Split key) = some f) ∧
      (∀ t1, f = .ptr t1 none →
        fieldAt pascal m1 (Split key) = some (.ptr t1 (some (zero t1)))) := by
  obtain ⟨m1, h1, h2⟩ :=
    populateLoop_last c pascal (Split key) [v] (Split key) m f hpath
  rw [bindField_target c pascal _ _ f _ htarget] at h1 h2
  have hb : afterLoop c (Split key) [v] tv = (tv, .error e) := by
    simp [afterLoop, populateField, hreg, hconv]
  rw [hb] at h1 h2
  obtain ⟨hkeep, halloc⟩ := rewrap_target f tv htarget
  refine ⟨m1, ?_, fun hf => ?_, fun t1 hf => ?_⟩
  · rw [PopulateQueryParameters_single c pascal _ _ _ _ hfilter, populateQueryParameter_msg,
      h1]
  · rw [h2, hkeep hf]
  · rw [h2, halloc t1 hf]

/-- Witness of C7, amended: the key `count` with the value `abc` on a message whose
optional field `count` is unset. -/
theorem populate_conversion_error_witness :
    ∃ m1, PopulateQueryParameters specConverters PascalFromSnake
        (.ptr exampleOptionalType (some (zero exampleOptionalType)))
        [("count", ["abc"])] noFilter =
        (.ptr exampleOptionalType (some m1), .error (.conversion .Int32 "abc")) ∧
      ((∀ t1, Value.ptr (.scalar .Int32) none ≠ .ptr t1 none) →
        fieldAt PascalFromSnake m1 (Split "count") =
          some (.ptr (.scalar .Int32) none)) ∧
      (∀ t1, Value.ptr (.scalar .Int32) none = .ptr t1 none →
        fieldAt PascalFromSnake m1 (Split "count") = some (.ptr t1 (some (zero t1)))) :=
  populate_conversion_error specConverters PascalFromSnake noFilter exampleOptionalType
    (zero exampleOptionalType) "count" "abc" (.ptr (.scalar .Int32) none)
    (.scalar (.int32 0)) (fun v => (specConverters.Int32 v).map Scalar.int32)
    (.conversion .Int32 "abc") rfl rfl rfl rfl rfl

/-- C8, evaluated: on the empty example message, whose field `name` is a string, the
key `name.value.x` is rejected with the error for a non-aggregate value in the middle of
the path, but the key `name.value`, with one segment after the scalar, makes the
reflection library panic in `FieldByName` instead of returning an error. -/
theorem populate_scalar_mid_path :
    PopulateQueryParameters specConverters PascalFromSnake exampleEmpty
        [("name.value.x", ["42"])] noFilter =
        (exampleEmpty, .error (.nonAggregate ["name", "value", "x"])) ∧
      PopulateQueryParameters specConverters PascalFromSnake exampleEmpty
        [("name.value", ["42"])] noFilter = (exampleEmpty, .panic) :=
  ⟨rfl, rfl⟩

/-- C9, counterexample: on a message whose optional int32 field `count` is unset, the
key `count` without a value fails with the no-value error, yet the field is not left
unchanged: the binder has allocated it before looking at the values, and it is now set
and holds zero. -/
theorem populate_no_value_allocates :
    peek PascalFromSnake (zero exampleOptionalType) (Split "count") =
        some (.ptr (.scalar .Int32) none) ∧
      PopulateQueryParameters specConverters PascalFromSnake
          (.ptr exampleOptionalType (some (zero exampleOptionalType)))
          [("count", [])] noFilter =
        (.ptr exampleOptionalType
          (some (.struct [("Count", .ptr (.scalar .Int32) (some (.scalar (.int32 0))))])),
          .error (.noValue ["count"])) ∧
      fieldAt PascalFromSnake
          (.struct [("Count", .ptr (.scalar .Int32) (some (.scalar (.int32 0))))])
          (Split "count") = some (.ptr (.scalar .Int32) (some (.scalar (.int32 0)))) ∧
      Value.ptr (.scalar .Int32) (some (.scalar (.int32 0))) ≠
        Value.ptr (.scalar .Int32) none := by
  refine ⟨rfl, rfl, rfl, ?_⟩
  intro h
  simp at h

/-- C9, amended: when a key resolves to a singular scalar field, optional or not, and
comes with no value, populate fails with the no-value error for that path.  The field
holds the value it had before the call, unless it is an optional field that was unset:
that one is allocated on the way and afterwards is set and holds the zero value. -/
theorem populate_no_value (c : Converters) (pascal : String → String)
    (filter : List String → Bool) (t : GoType) (m : Value) (key : String) (f tv : Value)
    (hfilter : filter (Split key) = false)
    (hpath : peek pascal m (Split key) = some f)
    (htarget : target f = some tv) :
    ∃ m1, PopulateQueryParameters c pascal (.ptr t (some m)) [(key, [])] filter =
        (.ptr t (some m1), .error (.noValue (Split key))) ∧
      ((∀ t1, f ≠ .ptr t1 none) → fieldAt pascal m1 (Split key) = some f) ∧
      (∀ t1, f = .ptr t1 none →
        fieldAt pascal m1 (Split key) = some (.ptr t1 (some (zero t1)))) := by
  obtain ⟨m1, h1, h2⟩ :=
    populateLoop_last c pascal (Split key) [] (Split key) m f hpath
  rw [bindField_target c pascal _ _ f _ htarget] at h1 h2
  have hb : afterLoop c (Split key) [] tv = (tv, .error (.noValue (Split key))) := by
    simp [afterLoop]
  rw [hb] at h1 h2
  obtain ⟨hkeep, halloc⟩ := rewrap_target f tv htarget
  refine ⟨m1, ?_, fun hf => ?_, fun t1 hf => ?_⟩
  · rw [PopulateQueryParameters_single c pascal _ _ _ _ hfilter, populateQueryParameter_msg,
      h1]
  · rw [h2, hkeep hf]
  · rw [h2, halloc t1 hf]

/-- Witness of C9, amended: the key `nested.value` without a value on the empty example
message, whose field `value` is not optional and reads as before. -/
theorem populate_no_value_witness :
    ∃ m1, PopulateQueryParameters specConverters PascalFromSnake
        (.ptr exampleType (some (zero exampleType))) [("nested.value", [])] noFilter =
        (.ptr exampleType (some m1), .error (.noValue (Split "nested.value"))) ∧
      ((∀ t1, Value.scalar (.int32 0) ≠ .ptr t1 none) →
        fieldAt PascalFromSnake m1 (Split "nested.value") = some (.scalar (.int32 0))) ∧
      (∀ t1, Value.scalar (.int32 0) = .ptr t1 none →
        fieldAt PascalFromSnake m1 (Split "nested.value") =
          some (.ptr t1 (some (zero t1)))) :=
  populate_no_value specConverters PascalFromSnake noFilter exampleType
    (zero exampleType) "nested.value" (.scalar (.int32 0)) (.scalar (.int32 0)) rfl rfl rfl

/-- C11: when the keys before `key` in the processing order are all applied with success
and the binding of `key` fails, populate returns exactly what the binding of `key`
returned and the message that binding left, which is the message with all the earlier
keys applied; the keys after `key` have no influence. -/
theorem populate_first_error (c : Converters) (pascal : String → String)
    (filter : List String → Bool) (msg msg1 msg2 : Value)
    (pre post : List (String × List Str)) (key : String) (vals : List Str) (r : Result)
    (hpre : PopulateQueryParameters c pascal msg pre filter = (msg1, .nil))
    (hfilter : filter (Split key) = false)
    (hkey : populateQueryParameter c pascal msg1 (Split key) vals = (msg2, r))
    (hr : r ≠ .nil) :
    PopulateQueryParameters c pascal msg (pre ++ (key, vals) :: post) filter = (msg2, r) ∧
      PopulateQueryParameters c pascal msg (pre ++ [(key, vals)]) filter = (msg2, r) := by
  rw [PopulateQueryParameters_append_ok c pascal filter pre _ msg msg1 hpre,
    PopulateQueryParameters_append_ok c pascal filter pre _ msg msg1 hpre,
    PopulateQueryParameters_fail c pascal filter post msg1 msg2 key vals r hfilter hkey hr,
    PopulateQueryParameters_fail c pascal filter [] msg1 msg2 key vals r hfilter hkey hr]
  exact ⟨rfl, rfl⟩

/-- Witness of C11: `name` is bound, `nested.value` fails on `abc`, `tags` is never
bound. -/
theorem populate_first_error_witness :
    PopulateQueryParameters specConverters PascalFromSnake exampleEmpty
        ([("name", ["n"])] ++ ("nested.value", ["abc"]) :: [("tags", ["x"])]) noFilter =
        (.ptr exampleType (some (.struct [("Name", .scalar (.string "n")),
          ("Nested", .ptr exampleNested (some (zero exampleNested))),
          ("Tags", .slice (.scalar .String) none), ("Id", .slice (.scalar .Int32) none),
          ("Data", .slice (.other .Uint8) none)])), .error (.conversion .Int32 "abc")) ∧
      PopulateQueryParameters specConverters PascalFromSnake exampleEmpty
        ([("name", ["n"])] ++ [("nested.value", ["abc"])]) noFilter =
        (.ptr exampleType (some (.struct [("Name", .scalar (.string "n")),
          ("Nested", .ptr exampleNested (some (zero exampleNested))),
          ("Tags", .slice (.scalar .String) none), ("Id", .slice (.scalar .Int32) none),
          ("Data", .slice (.other .Uint8) none)])), .error (.conversion .Int32 "abc")) :=
  populate_first_error specConverters PascalFromSnake noFilter exampleEmpty
    (.ptr exampleType (some (.struct [("Name", .scalar (.string "n")),
      ("Nested", .ptr exampleNested none),
      ("Tags", .slice (.scalar .String) none), ("Id", .slice (.scalar .Int32) none),
      ("Data", .slice (.other .Uint8) none)])))
    _ [("name", ["n"])] [("tags", ["x"])] "nested.value" ["abc"]
    (.error (.conversion .Int32 "abc")) rfl rfl rfl (by decide)

/-- C12: when a segment before the last resolves to a repeated field, populate fails with
the error for a repeated field inside a path, an Unsupported Type Error, whatever the
values, and the repeated field reads as before.  When the same field is the last segment,
populate returns what `populateRepeatedField` returns for it and the field holds what
that function made of it. -/
theorem populate_repeated_mid_path (c : Converters) (pascal : String → String)
    (filter : List String → Bool) (t : GoType) (m : Value) (key : String)
    (vals : List Str) (pre : List String) (s s2 : String) (rest : List String)
    (fs : List (String × Value)) (et : GoType) (elems : Option (List Value))
    (hfilter : filter (Split key) = false)
    (hsplit : Split key = pre ++ s :: s2 :: rest)
    (hpre : nestedAt pascal m pre = some (.struct fs))
    (hs : FieldByName fs (pascal s) = some (.slice et elems)) :
    PopulateQueryParameters c pascal (.ptr t (some m)) [(key, vals)] filter =
        (.ptr t (some (allocated pascal m pre)), .error (.unexpectedRepeated (Split key))) ∧
      (Error.unexpectedRepeated (Split key)).unsupported = true ∧
      peek pascal m (pre ++ [s]) = some (.slice et elems) ∧
      peek pascal (allocated pascal m pre) (pre ++ [s]) = some (.slice et elems) ∧
      (∀ key2, filter (Split key2) = false → Split key2 = pre ++ [s] →
        ∃ m1, PopulateQueryParameters c pascal (.ptr t (some m)) [(key2, vals)] filter =
            (.ptr t (some m1), (populateRepeatedField c (.slice et elems) vals).2) ∧
          fieldAt pascal m1 (pre ++ [s]) =
            some (populateRepeatedField c (.slice et elems) vals).1) := by
  have hpeek : peek pascal m (pre ++ [s]) = some (.slice et elems) := by
    rw [peek_append, hpre]
    exact hs
  refine ⟨?_, rfl, hpeek, ?_, ?_⟩
  · rw [PopulateQueryParameters_single c pascal _ _ _ _ hfilter, populateQueryParameter_msg,
      hsplit, populateLoop_stuck c pascal _ vals pre (s :: s2 :: rest) m (.struct fs) _ hpre
        (populateLoop_slice_mid c pascal _ vals s s2 rest fs et elems hs)]
  · exact (peek_allocated pascal pre (pre ++ [s]) m (.slice et elems) rfl).mpr hpeek
  · intro key2 hf2 hsplit2
    obtain ⟨m1, h1, h2⟩ :=
      populateLoop_leaf c pascal (pre ++ [s]) vals (pre ++ [s]) m _ hpeek rfl
    refine ⟨m1, ?_, h2⟩
    rw [PopulateQueryParameters_single c pascal _ _ _ _ hf2, populateQueryParameter_msg,
      hsplit2, h1]
    rfl

/-- Witness of C12: the key `tags.x` on the empty example message, whose `tags` is a
repeated string field. -/
theorem populate_repeated_mid_path_witness :
    PopulateQueryParameters specConverters PascalFromSnake
        (.ptr exampleType (some (zero exampleType))) [("tags.x", ["a"])] noFilter =
        (.ptr exampleType (some (allocated PascalFromSnake (zero exampleType) [])),
          .error (.unexpectedRepeated (Split "tags.x"))) ∧
      (Error.unexpectedRepeated (Split "tags.x")).unsupported = true ∧
      peek PascalFromSnake (zero exampleType) ([] ++ ["tags"]) =
        some (.slice (.scalar .String) none) ∧
      peek PascalFromSnake (allocated PascalFromSnake (zero exampleType) [])
        ([] ++ ["tags"]) = some (.slice (.scalar .String) none) ∧
      (∀ key2, noFilter (Split key2) = false → Split key2 = [] ++ ["tags"] →
        ∃ m1, PopulateQueryParameters specConverters PascalFromSnake
            (.ptr exampleType (some (zero exampleType))) [(key2, ["a"])] noFilter =
            (.ptr exampleType (some m1),
              (populateRepeatedField specConverters
                (.slice (.scalar .String) none) ["a"]).2) ∧
          fieldAt PascalFromSnake m1 ([] ++ ["tags"]) =
            some (populateRepeatedField specConverters
              (.slice (.scalar .String) none) ["a"]).1) :=
  populate_repeated_mid_path specConverters PascalFromSnake noFilter exampleType
    (zero exampleType) "tags.x" ["a"] [] "tags" "x" []
    (zeroFields [("Name", .scalar .String), ("Nested", .ptr exampleNested),
      ("Tags", .slice (.scalar .String)), ("Id", .slice (.scalar .Int32)),
      ("Data", .slice (.other .Uint8))])
    (.scalar .String) none rfl rfl rfl rfl

/-- C13: when a key resolves to a repeated field whose element kind has no converter in
the registry, populate fails, whatever the values, with the error for an unsupported
field type, an Unsupported Type Error, and the field holds what it held before. -/
theorem populate_repeated_unsupported (c : Converters) (pascal : String → String)
    (filter : List String → Bool) (t : GoType) (m : Value) (key : String)
    (vals : List Str) (et : GoType) (prior : Option (List Value))
    (hfilter : filter (Split key) = false)
    (hpath : peek pascal m (Split key) = some (.slice et prior))
    (hreg : convFromType c et.Kind = none) :
    ∃ m1, PopulateQueryParameters c pascal (.ptr t (some m)) [(key, vals)] filter =
        (.ptr t (some m1), .error (.unsupportedFieldType et.Kind)) ∧
      (Error.unsupportedFieldType et.Kind).unsupported = true ∧
      fieldAt pascal m1 (Split key) = some (.slice et prior) := by
  obtain ⟨m1, h1, h2⟩ :=
    populateLoop_leaf c pascal (Split key) vals (Split key) m _ hpath rfl
  have hb : bindLeaf c (Split key) vals (.slice et prior) =
      (.slice et prior, .error (.unsupportedFieldType et.Kind)) := by
    simp [bindLeaf, populateRepeatedField, hreg]
  rw [hb] at h1 h2
  refine ⟨m1, ?_, rfl, h2⟩
  rw [PopulateQueryParameters_single c pascal _ _ _ _ hfilter, populateQueryParameter_msg, h1]

/-- Witness of C13: the key `data`, a bytes field, on an example message whose `data`
holds one byte. -/
theorem populate_repeated_unsupported_witness :
    ∃ m1, PopulateQueryParameters specConverters PascalFromSnake
        (.ptr (.struct [("Data", .slice (.other .Uint8))])
          (some (.struct [("Data", .slice (.other .Uint8) (some [.other .Uint8]))])))
        [("data", ["x", "y"])] noFilter =
        (.ptr (.struct [("Data", .slice (.other .Uint8))]) (some m1),
          .error (.unsupportedFieldType (GoType.other .Uint8).Kind)) ∧
      (Error.unsupportedFieldType (GoType.other .Uint8).Kind).unsupported = true ∧
      fieldAt PascalFromSnake m1 (Split "data") =
        some (.slice (.other .Uint8) (some [.other .Uint8])) :=
  populate_repeated_unsupported specConverters PascalFromSnake noFilter
    (.struct [("Data", .slice (.other .Uint8))])
    (.struct [("Data", .slice (.other .Uint8) (some [.other .Uint8]))])
    "data" ["x", "y"] (.other .Uint8) (some [.other .Uint8]) rfl rfl rfl

/-- C14: when the last segment of a key resolves to a nested-message field (set or
unset) or to a field of a kind the binder does not handle, and at least one value is
given, populate fails with an Unsupported Type Error: the error for an unsupported field
type, of kind struct, for a nested message, and the error for an unexpected type for the
other kinds. -/
theorem populate_unsupported_target (c : Converters) (pascal : String → String)
    (filter : List String → Bool) (t : GoType) (m : Value) (key : String) (v : Str)
    (more : List Str) (f : Value)
    (hfilter : filter (Split key) = false)
    (hpath : peek pascal m (Split key) = some f)
    (hf : (∃ k, f = .other k) ∨ (∃ inner, enter f = some (.struct inner))) :
    ∃ m1 e, PopulateQueryParameters c pascal (.ptr t (some m)) [(key, v :: more)] filter =
        (.ptr t (some m1), .error e) ∧
      e.unsupported = true ∧
      (∀ k, f = .other k → e = .unexpectedType k.Kind) ∧
      ((∃ inner, enter f = some (.struct inner)) → e = .unsupportedFieldType .Struct) := by
  obtain ⟨m1, h1, -⟩ :=
    populateLoop_last c pascal (Split key) (v :: more) (Split key) m f hpath
  have hpop : PopulateQueryParameters c pascal (.ptr t (some m)) [(key, v :: more)] filter =
      (.ptr t (some m1), (bindField c pascal (Split key) (v :: more) [] f).2) := by
    rw [PopulateQueryParameters_single c pascal _ _ _ _ hfilter, populateQueryParameter_msg,
      h1]
  have hstruct : ∀ inner : List (String × Value),
      (populateLoop c pascal (Split key) (v :: more) [] (.struct inner)).2 =
        .error (.unsupportedFieldType .Struct) := by
    intro inner
    simp [populateLoop, afterLoop, populateField, Value.Kind, convFromType]
  rcases hf with ⟨k, rfl⟩ | ⟨inner, hin⟩
  · refine ⟨m1, .unexpectedType k.Kind, ?_, rfl, fun k1 hk => ?_, fun ⟨inner, hin⟩ => ?_⟩
    · rw [hpop]
      cases k <;> simp [bindField, Value.Kind, OtherKind.Kind]
    · cases hk; rfl
    · simp [enter] at hin
  · refine ⟨m1, .unsupportedFieldType .Struct, ?_, rfl, fun k hk => ?_, fun _ => rfl⟩
    · rw [hpop]
      cases f with
      | ptr t1 target =>
        simp only [enter, Option.some.injEq] at hin
        simp [bindField, Value.Kind, hin, hstruct]
      | struct fs1 => simp [bindField, Value.Kind, hstruct]
      | invalid => simp [enter] at hin
      | scalar x => simp [enter] at hin
      | named nm x => simp [enter] at hin
      | other k => simp [enter] at hin
      | slice t1 e => simp [enter] at hin
    · subst hk
      simp [enter] at hin

/-- Witness of C14: the key `nested`, a nested-message field, with one value on the empty
example message. -/
theorem populate_unsupported_target_witness :
    ∃ m1 e, PopulateQueryParameters specConverters PascalFromSnake
        (.ptr exampleType (some (zero exampleType))) [("nested", "x" :: [])] noFilter =
        (.ptr exampleType (some m1), .error e) ∧
      e.unsupported = true ∧
      (∀ k, Value.ptr exampleNested none = .other k → e = .unexpectedType k.Kind) ∧
      ((∃ inner, enter (Value.ptr exampleNested none) = some (.struct inner)) →
        e = .unsupportedFieldType .Struct) :=
  populate_unsupported_target specConverters PascalFromSnake noFilter exampleType
    (zero exampleType) "nested" "x" [] (.ptr exampleNested none) rfl rfl
    (Or.inr ⟨zeroFields [("Value", .scalar .Int32), ("Label", .scalar .String)], rfl⟩)

/-- C15, counterexample: the distinct keys `name` and `Name` both translate to the field
`Name`.  Bound in the one order and in the other to the empty example message, populate
succeeds both times and leaves different messages: the key bound last wins. -/
theorem populate_order_matters :
    "name" ≠ "Name" ∧
    PopulateQueryParameters specConverters PascalFromSnake exampleEmpty
        [("name", ["a"]), ("Name", ["b"])] noFilter =
      (.ptr exampleType (some (.struct [("Name", .scalar (.string "b")),
        ("Nested", .ptr exampleNested none),
        ("Tags", .slice (.scalar .String) none), ("Id", .slice (.scalar .Int32) none),
        ("Data", .slice (.other .Uint8) none)])), .nil) ∧
    PopulateQueryParameters specConverters PascalFromSnake exampleEmpty
        [("Name", ["b"]), ("name", ["a"])] noFilter =
      (.ptr exampleType (some (.struct [("Name", .scalar (.string "a")),
        ("Nested", .ptr exampleNested none),
        ("Tags", .slice (.scalar .String) none), ("Id", .slice (.scalar .Int32) none),
        ("Data", .slice (.other .Uint8) none)])), .nil) ∧
    Value.ptr exampleType (some (.struct [("Name", .scalar (.string "b")),
        ("Nested", .ptr exampleNested none),
        ("Tags", .slice (.scalar .String) none), ("Id", .slice (.scalar .Int32) none),
        ("Data", .slice (.other .Uint8) none)])) ≠
      Value.ptr exampleType (some (.struct [("Name", .scalar (.string "a")),
        ("Nested", .ptr exampleNested none),
        ("Tags", .slice (.scalar .String) none), ("Id", .slice (.scalar .Int32) none),
        ("Data", .slice (.other .Uint8) none)])) := by
  refine ⟨by decide, rfl, rfl, ?_⟩
  intro h
  simp at h

/-- C15, amended: when no two keys that the filter lets through translate to the same
field path, the order in which the keys are processed is irrelevant: if populate succeeds
in one order, it succeeds in every other order of the same keys and leaves the same
message. -/
theorem populate_order_irrelevant (c : Converters) (pascal : String → String)
    (filter : List String → Bool) (msg msg1 : Value) (l1 l2 : List (String × List Str))
    (hperm : l1.Perm l2)
    (hdistinct : (l1.filter fun kv => !filter (Split kv.1)).Pairwise
      fun a b => translated pascal a.1 ≠ translated pascal b.1)
    (hok : PopulateQueryParameters c pascal msg l1 filter = (msg1, .nil)) :
    PopulateQueryParameters c pascal msg l2 filter = (msg1, .nil) := by
  cases msg with
  | ptr t a =>
    cases a with
    | some m =>
      rw [PopulateQueryParameters_msg] at hok ⊢
      simp only [Prod.mk.injEq] at hok
      obtain ⟨hm, hr⟩ := hok
      have hd : l1.Pairwise (fun a b => filter (Split a.1) = true ∨
          filter (Split b.1) = true ∨ translated pascal a.1 ≠ translated pascal b.1) := by
        refine (pairwise_of_filter _ _ l1 hdistinct).imp ?_
        intro a b hab
        by_cases ha : filter (Split a.1) = true
        · exact Or.inl ha
        · by_cases hb : filter (Split b.1) = true
          · exact Or.inr (Or.inl hb)
          · exact Or.inr (Or.inr (hab (by simpa using ha) (by simpa using hb)))
      have h1 : populateAll c pascal filter l1 m =
          ((populateAll c pascal filter l1 m).1, .nil) := Prod.ext rfl hr
      have h2 := populateAll_perm c pascal filter l1 l2 hperm hd m _ h1
      rw [h2]
      simp only [Prod.mk.injEq, and_true]
      exact hm
    | none =>
      exact PopulateQueryParameters_fixed_perm c pascal filter _ _ (fun _ _ => rfl)
        l1 l2 hperm hok
  | invalid =>
    exact PopulateQueryParameters_fixed_perm c pascal filter _ _ (fun _ _ => rfl)
      l1 l2 hperm hok
  | scalar x =>
    exact PopulateQueryParameters_fixed_perm c pascal filter _ _ (fun _ _ => rfl)
      l1 l2 hperm hok
  | named n x =>
    exact PopulateQueryParameters_fixed_perm c pascal filter _ _ (fun _ _ => rfl)
      l1 l2 hperm hok
  | other k =>
    exact PopulateQueryParameters_fixed_perm c pascal filter _ _ (fun _ _ => rfl)
      l1 l2 hperm hok
  | slice t e =>
    exact PopulateQueryParameters_fixed_perm c pascal filter _ _ (fun _ _ => rfl)
      l1 l2 hperm hok
  | struct fs =>
    exact PopulateQueryParameters_fixed_perm c pascal filter _ _ (fun _ _ => rfl)
      l1 l2 hperm hok

/-- Witness of C15, amended: the keys `nested.value` and `name` in the two orders. -/
theorem populate_order_irrelevant_witness :
    PopulateQueryParameters specConverters PascalFromSnake exampleEmpty
        [("name", ["a"]), ("nested.value", ["42"])] noFilter =
      (.ptr exampleType (some (.struct [("Name", .scalar (.string "a")),
        ("Nested", .ptr exampleNested (some (.struct [("Value", .scalar (.int32 42)),
          ("Label", .scalar (.string ""))]))),
        ("Tags", .slice (.scalar .String) none), ("Id", .slice (.scalar .Int32) none),
        ("Data", .slice (.other .Uint8) none)])), .nil) :=
  populate_order_irrelevant specConverters PascalFromSnake noFilter exampleEmpty _
    [("nested.value", ["42"]), ("name", ["a"])] [("name", ["a"]), ("nested.value", ["42"])]
    (List.Perm.swap _ _ _) (by decide) rfl

/-- C16, evaluated: on the empty example message the key `nested.value` with the value
`abc` returns a conversion error on its own, and populate returns that error when this
key is processed before `name.value`; processed after `name.value`, which makes the
reflection library panic, populate returns no error at all. -/
theorem populate_error_depends_on_order :
    (PopulateQueryParameters specConverters PascalFromSnake exampleEmpty
        [("nested.value", ["abc"])] noFilter).2 = .error (.conversion .Int32 "abc") ∧
      (PopulateQueryParameters specConverters PascalFromSnake exampleEmpty
        [("nested.value", ["abc"]), ("name.value", ["42"])] noFilter).2 =
        .error (.conversion .Int32 "abc") ∧
      (PopulateQueryParameters specConverters PascalFromSnake exampleEmpty
        [("name.value", ["42"]), ("nested.value", ["abc"])] noFilter).2 = .panic :=
  ⟨rfl, rfl, rfl⟩

/-- C18: populate is idempotent.  For every message, filter and query values in a fixed
processing order, running populate again on the message the first run left returns what
the first run returned, success or the same failure, and leaves that message as it
is. -/
theorem populate_idempotent (c : Converters) (pascal : String → String)
    (filter : List String → Bool) (msg : Value) (values : List (String × List Str)) :
    PopulateQueryParameters c pascal
        (PopulateQueryParameters c pascal msg values filter).1 values filter =
      PopulateQueryParameters c pascal msg values filter := by
  cases msg with
  | ptr t a =>
    cases a with
    | some m =>
      rw [PopulateQueryParameters_msg]
      simp only
      rw [PopulateQueryParameters_msg, populateAll_idem]
    | none =>
      rw [PopulateQueryParameters_fixed c pascal filter _ (fun _ _ => rfl) values]
  | invalid => rw [PopulateQueryParameters_fixed c pascal filter _ (fun _ _ => rfl) values]
  | scalar x => rw [PopulateQueryParameters_fixed c pascal filter _ (fun _ _ => rfl) values]
  | named nm x => rw [PopulateQueryParameters_fixed c pascal filter _ (fun _ _ => rfl) values]
  | other k => rw [PopulateQueryParameters_fixed c pascal filter _ (fun _ _ => rfl) values]
  | slice t e => rw [PopulateQueryParameters_fixed c pascal filter _ (fun _ _ => rfl) values]
  | struct fs => rw [PopulateQueryParameters_fixed c pascal filter _ (fun _ _ => rfl) values]

end Runtime
